import Mathlib

/-!
# Verification of the math-plot exact-arithmetic core

This file embeds, in Lean 4, the exact-arithmetic core of the `math-plot`
repository and settles the specification claims about it.

Embedded source:
* the `Rational` / `RationalTuple` classes of `rational.js` (the revision
  defining the `eFactor` field and the `power` operation, which is the
  revision that `mathml.js` and `tests/rational.test.js` exercise);
* the `MathML` class of `mathml.js` (function compilation and exact
  evaluation of a content-MathML tree);
* the `_getStepSize` axis-step search of `math-plot.js` (the revision with
  `pi-units` support).

Modelling conventions:
* JavaScript numbers are idealized: integer-valued numbers become `ℤ`,
  general (float) numbers become `ℚ`, and floating-point arithmetic is
  treated as exact real/rational arithmetic.  `Math.PI` and `Math.E` become
  the real constants `π` and `e`, so `approx`, compiled functions, and the
  step-size search live in `ℝ`.
* JavaScript exceptions become `Except String` with the thrown message;
  where the message interpolates a number, the model renders the exact
  fraction (`ratStr`) in place of JavaScript's float `toString`.
* JavaScript division of integers is exact in every reachable case we prove
  about (the divisor is a gcd of the operands); `Int` division is used.
  The one unreachable-in-our-theorems corner where JavaScript produces
  `NaN` (dividing `0` by a zero gcd in `simplify`) is modelled by the
  Lean junk value `0 / 0 = 0`, and theorems touching `simplify` carry the
  hypotheses that keep them inside the faithful region.
-/

namespace MathPlot

/-- JavaScript's remainder operator `a % b`: truncated remainder, sign of the
dividend, `|result| < |b|` for `b ≠ 0`; `a % 0` is `NaN`, modelled as `0`
(never reached: `_gcd` tests `b` before recursing). -/
def jsRem (a b : ℤ) : ℤ := a.sign * ((a.natAbs % b.natAbs : ℕ) : ℤ)

/-- Fuelled unfolding of `Rational._gcd`; the fuel is structural so the
kernel can evaluate closed instances.  `jsGcd_eq` below recovers the exact
source recursion `if(!b) return a; return this._gcd(b, a % b);`. -/
def jsGcdAux : ℕ → ℤ → ℤ → ℤ
  | 0, a, _ => a
  | f + 1, a, b => if b = 0 then a else jsGcdAux f b (jsRem a b)

/-- `Rational._gcd(a, b)` from rational.js.  Note the result carries a sign
(it is `±gcd(|a|, |b|)`). -/
def jsGcd (a b : ℤ) : ℤ := jsGcdAux (b.natAbs + 1) a b

lemma jsRem_natAbs (a b : ℤ) : (jsRem a b).natAbs = a.natAbs % b.natAbs := by
  rw [jsRem, Int.natAbs_mul, Int.natAbs_sign, Int.natAbs_ofNat]
  rcases eq_or_ne a 0 with rfl | ha
  · simp
  · simp [ha]

lemma jsRem_natAbs_lt (a b : ℤ) (hb : b ≠ 0) : (jsRem a b).natAbs < b.natAbs := by
  rw [jsRem_natAbs]
  exact Nat.mod_lt _ (Int.natAbs_pos.mpr hb)

lemma jsGcdAux_congr : ∀ (f1 f2 : ℕ) (a b : ℤ),
    b.natAbs < f1 → b.natAbs < f2 → jsGcdAux f1 a b = jsGcdAux f2 a b := by
  intro f1
  induction f1 using Nat.strong_induction_on with
  | _ f1 ih =>
    intro f2 a b h1 h2
    cases f1 with
    | zero => omega
    | succ f1' =>
      cases f2 with
      | zero => omega
      | succ f2' =>
        rw [jsGcdAux, jsGcdAux]
        split
        · rfl
        · rename_i hb
          have hr := jsRem_natAbs_lt a b hb
          exact ih f1' (by omega) f2' b (jsRem a b) (by omega) (by omega)

/-- The source recursion of `_gcd`. -/
lemma jsGcd_eq (a b : ℤ) : jsGcd a b = if b = 0 then a else jsGcd b (jsRem a b) := by
  rw [jsGcd, jsGcd, jsGcdAux]
  split
  · rfl
  · rename_i hb
    have hr := jsRem_natAbs_lt a b hb
    exact jsGcdAux_congr _ _ _ _ (by omega) (by omega)

/-- The state of a `Rational` object from rational.js: integer numerator and
denominator plus the multiplicities of the symbols π and e. -/
structure Rational where
  num : ℤ
  den : ℤ
  piF : ℤ
  eF : ℤ
  deriving DecidableEq, Repr

/-- `Rational.simplify()`: divide numerator and denominator by `_gcd`, then
make the denominator nonnegative. -/
def Rational.simplify (r : Rational) : Rational :=
  let g := jsGcd r.num r.den
  let n := r.num / g
  let d := r.den / g
  if d < 0 then ⟨-n, -d, r.piF, r.eF⟩ else ⟨n, d, r.piF, r.eF⟩

/-- The constructor body `new Rational(n, d, p, e)` once both arguments have
been reduced to integers: record the fields and simplify. -/
def mkR (n d p e : ℤ) : Rational := Rational.simplify ⟨n, d, p, e⟩

/-- The result of `Rational._parseInput`: the integer multiplier and the
multiplicities (0 or 1) of `pi` and `e`. -/
structure ParsedNum where
  mult : ℤ
  pi : ℤ
  e : ℤ
  deriving DecidableEq, Repr

/-- A JavaScript value passed as a `Rational` constructor argument: a number
(idealized as an exact rational) or a string. -/
inductive JSNum where
  | num (q : ℚ)
  | str (s : String)

/-- `parseInt` on a string of decimal digits. -/
def parseIntDigits (ds : List Char) : ℕ :=
  ds.foldl (fun a c => 10 * a + (c.toNat - '0'.toNat)) 0

/-- Matching the anchored regular expression of `_parseInput`,
`/^(-)?([0-9]+)?(pi|e)?$/`: an optional minus sign, an optional digit group,
an optional symbol.  The pattern is deterministic (the digit group is
greedy and no backtracking can succeed where the greedy match fails), so a
direct scan is extensionally the regex. -/
def tokenCore (cs : List Char) : Option (Option (List Char) × Option String) :=
  let ds := cs.takeWhile (fun c => c.isDigit)
  let rest := cs.dropWhile (fun c => c.isDigit)
  let dsOpt := if ds.isEmpty then none else some ds
  if rest = [] then some (dsOpt, none)
  else if rest = ['p', 'i'] then some (dsOpt, some "pi")
  else if rest = ['e'] then some (dsOpt, some "e")
  else none

def jsMatchToken (s : String) : Option (Bool × Option (List Char) × Option String) :=
  let cs := s.data
  let neg : Bool := cs.head? == some '-'
  let cs1 := if neg then cs.tail else cs
  match tokenCore cs1 with
  | some (dsOpt, symOpt) => some (neg, dsOpt, symOpt)
  | none => none

/-- Rendering of a number in an error message (JavaScript prints the float;
we print the exact fraction). -/
def ratStr (q : ℚ) : String :=
  if q.den = 1 then toString q.num else toString q.num ++ "/" ++ toString q.den

/-- `Rational._parseInput(number)`: a number must be an integer; a string is
matched against the token pattern, an absent digit group means magnitude 1,
and the result is negated when the minus sign is present. -/
def parseInput (v : JSNum) : Except String ParsedNum :=
  match v with
  | .num q =>
    -- assert(number === parseInt(number)): fails on any non-integer number
    if q.den = 1 then .ok ⟨q.num, 0, 0⟩
    else .error ("Invalid number:" ++ ratStr q)
  | .str s =>
    if s = "" then .error ("Invalid number:" ++ s)
    else
      match jsMatchToken s with
      | none => .error ("Invalid number:" ++ s)
      | some (neg, dsOpt, symOpt) =>
        let mult : ℤ :=
          match dsOpt with
          | some ds => (parseIntDigits ds : ℤ)
          | none => 1
        let piV : ℤ := if symOpt = some "pi" then 1 else 0
        let eV : ℤ := if symOpt = some "e" then 1 else 0
        .ok ⟨if neg then -mult else mult, piV, eV⟩

/-- The constructor's `numerator.match(/^(.+)\/(.+)$/)`: split a string at a
`/` with nonempty text on both sides.  The first group is greedy, so the
split happens at the last eligible slash. -/
def jsSplitSlash (s : String) : Option (String × String) :=
  let cs := s.data
  let n := cs.length
  let idxs := (List.range n).filter
    (fun i => (cs.getD i ' ' == '/') && decide (1 ≤ i) && decide (i + 1 < n))
  match idxs.getLast? with
  | some i => some (⟨cs.take i⟩, ⟨cs.drop (i + 1)⟩)
  | none => none

/-- `Math.round`: round half toward positive infinity. -/
def jsRound (q : ℚ) : ℤ := ⌊q + 1 / 2⌋

/-- The length of the shortest decimal mantissa of a value with at most 9
fractional digits: the least `k` with `q * 10^k` integral.  For a rounded
float printed in decimal notation this is `.toString().split('.')[1].length`;
it also recovers the minimal power-of-ten denominator of a value printed in
exponential notation. -/
def mantissaLen (q : ℚ) : ℕ :=
  (((List.range 10).find? (fun k => (q * 10 ^ k).den == 1))).getD 9

def digitsAux : ℕ → ℕ → ℕ
  | 0, _ => 1
  | fuel + 1, n => if n < 10 then 1 else 1 + digitsAux fuel (n / 10)

/-- The decimal digit count of a natural number (exact below `10^20`, far
beyond the 3-digit significands reachable in the constructor). -/
def numDigits (n : ℕ) : ℕ := digitsAux 20 n

/-- Constructor step 1, `numerator.match(/^(.+)\/(.+)$/)`: a string numerator
containing an eligible slash is split, and the split replaces the
denominator argument. -/
def splitStep (nArg dArg : JSNum) : JSNum × JSNum :=
  match nArg with
  | .str s =>
    match jsSplitSlash s with
    | some (a, b) => (.str a, .str b)
    | none => (.str s, dArg)
  | _ => (nArg, dArg)

/-- Constructor step 2: a numeric, non-integer numerator is rounded to 9
decimal places and the branch taken depends on whether `rounded.toString()`
contains a dot.  JavaScript prints a nonzero number below `1e-6` in
exponential notation (non-integral doubles are far below the `1e21` upper
exponential threshold): a single-digit significand such as `1e-7` has no
dot, so the still non-integral `rounded` is kept as the numerator (and is
then rejected by `_parseInput`); a multi-digit significand such as `1.5e-7`
has a dot, and the characters after it are the significand's fractional
digits followed by `e-` and one exponent digit, so the mantissa length is
the significand's digit count plus 2 (the scaled numerator stays
non-integral and is likewise rejected).  At `1e-6` and above the string is
plain decimal: the rounded value is either integral (no dot; it becomes the
numerator) or the numerator and denominator are scaled by the power of ten
of the shortest mantissa (this path replaces the denominator argument). -/
def floatStep (nArg dArg : JSNum) : JSNum × JSNum :=
  match nArg with
  | .num q =>
    if q.den = 1 then (.num q, dArg)
    else
      let rounded : ℚ := (jsRound (q * 10 ^ 9) : ℚ) / 10 ^ 9
      if rounded.den = 1 then (.num rounded, dArg)
      else if |rounded| < 1 / 10 ^ 6 then
        let dc := numDigits (rounded * 10 ^ mantissaLen rounded).num.natAbs
        if dc = 1 then (.num rounded, dArg)
        else
          let k := dc + 2
          (.num (rounded * 10 ^ k), .num ((10 : ℚ) ^ k))
      else
        let k := mantissaLen rounded
        (.num (rounded * 10 ^ k), .num ((10 : ℚ) ^ k))
  | _ => (nArg, dArg)

/-- The `Rational` constructor: slash split, float adjustment, then both
arguments go through `_parseInput`, the symbol multiplicities are folded
into the factors, and the result is simplified. -/
def jsConstructor (nArg dArg : JSNum) (p e : ℤ) : Except String Rational :=
  let s := splitStep nArg dArg
  let a := floatStep s.1 s.2
  do
    let pn ← parseInput a.1
    let pd ← parseInput a.2
    .ok (Rational.simplify ⟨pn.mult, pd.mult, p + pn.pi - pd.pi, e + pn.e - pd.e⟩)

/-- `Rational.plus`, on a `Rational` operand. -/
def Rational.plus (a b : Rational) : Except String Rational :=
  if a.piF ≠ b.piF ∨ a.eF ≠ b.eF then
    .error "Adding of numbers with different symbol factors not supported."
  else
    .ok (mkR (a.num * b.den + b.num * a.den) (a.den * b.den) a.piF a.eF).simplify

/-- `Rational.minus`, on a `Rational` operand. -/
def Rational.minus (a b : Rational) : Except String Rational :=
  if a.piF ≠ b.piF ∨ a.eF ≠ b.eF then
    .error "Subtracting of numbers with different symbol factors not supported."
  else
    .ok (mkR (a.num * b.den - b.num * a.den) (a.den * b.den) a.piF a.eF).simplify

/-- `Rational.times`, on a `Rational` operand: mixing a π factor with an e
factor is rejected. -/
def Rational.times (a b : Rational) : Except String Rational :=
  if (a.piF ≠ 0 ∧ b.eF ≠ 0) ∨ (a.eF ≠ 0 ∧ b.piF ≠ 0) then
    .error "Multiplying of numbers with different symbols not supported."
  else
    .ok (mkR (a.num * b.num) (a.den * b.den) (a.piF + b.piF) (a.eF + b.eF)).simplify

/-- `Rational.divide`, on a `Rational` operand. -/
def Rational.divide (a b : Rational) : Except String Rational :=
  if (a.piF ≠ 0 ∧ b.eF ≠ 0) ∨ (a.eF ≠ 0 ∧ b.piF ≠ 0) then
    .error "Dividing of numbers with different symbols not supported."
  else
    .ok (mkR (a.num * b.den) (a.den * b.num) (a.piF - b.piF) (a.eF - b.eF)).simplify

/-- `n ** k` for integers in JavaScript: an exact rational for `k ≥ 0` or
`n ≠ 0`; `0 ** k` for `k < 0` is `Infinity`, which the constructor's
integer assertion then rejects — modelled as the error surfacing there. -/
def jsPowQ (n k : ℤ) : Except String ℚ :=
  if n = 0 ∧ k < 0 then .error "Invalid number:Infinity" else .ok ((n : ℚ) ^ k)

/-- `Rational.power`, on a `Rational` operand: the exponent must be an
integer (denominator 1) free of symbols; numerator and denominator are
raised to it and the symbol factors scaled by it, going back through the
constructor (so a non-integer power of the numerator or denominator takes
the constructor's float/assert paths). -/
def Rational.power (a b : Rational) : Except String Rational :=
  if b.den ≠ 1 ∨ b.eF ≠ 0 ∨ b.piF ≠ 0 then
    .error "Raising to a non-integer power is not supported."
  else do
    let nq ← jsPowQ a.num b.num
    let dq ← jsPowQ a.den b.num
    let r ← jsConstructor (.num nq) (.num dq) (a.piF * b.num) (a.eF * b.num)
    .ok r.simplify

/-- `Rational.equal`: all four fields must agree, except that a zero
numerator makes the symbol factors irrelevant. -/
def Rational.equal (a b : Rational) : Bool :=
  a.num == b.num && a.den == b.den &&
    ((a.piF == b.piF && a.eF == b.eF) || a.num == 0)

/-- `a.times(m)` for an integer number `m`: the operand is promoted via
`new Rational(m)` (which is `⟨m, 1, 0, 0⟩`), and the symbol-mixing guard of
`times` cannot fire for that symbol-free operand. -/
def Rational.timesInt (a : Rational) (m : ℤ) : Rational :=
  (mkR (a.num * m) (a.den * 1) a.piF a.eF).simplify

/-- `a.divide(k)` for an integer number `k`, promoted via `new Rational(k)`;
the symbol-mixing guard of `divide` cannot fire. -/
def Rational.divideInt (a : Rational) (k : ℤ) : Rational :=
  (mkR (a.num * 1) (a.den * k) a.piF a.eF).simplify

/-- `Rational.approx`: `(numerator * PI**piFactor * E**eFactor) /
denominator`, as a real number. -/
noncomputable def Rational.approx (a : Rational) : ℝ :=
  (a.num * Real.pi ^ a.piF * Real.exp 1 ^ a.eF) / a.den

lemma jsGcd_natAbs (a b : ℤ) : (jsGcd a b).natAbs = Nat.gcd a.natAbs b.natAbs := by
  have H : ∀ m, ∀ a b : ℤ, b.natAbs = m →
      (jsGcd a b).natAbs = Nat.gcd a.natAbs b.natAbs := by
    intro m
    induction m using Nat.strong_induction_on with
    | _ m ih =>
      intro a b hm
      rw [jsGcd_eq]
      split
      · rename_i h
        subst h
        simp
      · rename_i hb
        have hlt : (jsRem a b).natAbs < m := by
          rw [← hm]
          exact jsRem_natAbs_lt a b hb
        rw [ih (jsRem a b).natAbs hlt b (jsRem a b) rfl, jsRem_natAbs]
        rw [Nat.gcd_comm a.natAbs b.natAbs, Nat.gcd_rec b.natAbs a.natAbs]
        exact Nat.gcd_comm _ _
  exact H b.natAbs a b rfl

lemma jsGcd_dvd_left (a b : ℤ) : jsGcd a b ∣ a := by
  rw [← Int.natAbs_dvd_natAbs, jsGcd_natAbs]
  exact Nat.gcd_dvd_left _ _

lemma jsGcd_dvd_right (a b : ℤ) : jsGcd a b ∣ b := by
  rw [← Int.natAbs_dvd_natAbs, jsGcd_natAbs]
  exact Nat.gcd_dvd_right _ _

lemma jsGcd_ne_zero {a b : ℤ} (hb : b ≠ 0) : jsGcd a b ≠ 0 := by
  intro h
  have := jsGcd_natAbs a b
  rw [h] at this
  simp only [Int.natAbs_zero] at this
  exact hb (Int.natAbs_eq_zero.mp (Nat.eq_zero_of_gcd_eq_zero_right this.symm))

/-- `simplify` leaves the symbol factors untouched. -/
lemma Rational.simplify_piF (r : Rational) : r.simplify.piF = r.piF := by
  rw [Rational.simplify]
  split <;> rfl

lemma Rational.simplify_eF (r : Rational) : r.simplify.eF = r.eF := by
  rw [Rational.simplify]
  split <;> rfl

/-- After `simplify`, a value whose denominator was nonzero has a positive
denominator coprime to its numerator: the invariant of the spec. -/
lemma Rational.simplify_inv {n d : ℤ} (p e : ℤ) (hd : d ≠ 0) :
    0 < (Rational.simplify ⟨n, d, p, e⟩).den ∧
      Nat.gcd (Rational.simplify ⟨n, d, p, e⟩).num.natAbs
        (Rational.simplify ⟨n, d, p, e⟩).den.natAbs = 1 := by
  have hg : jsGcd n d ≠ 0 := jsGcd_ne_zero hd
  obtain ⟨n0, hn0⟩ := jsGcd_dvd_left n d
  obtain ⟨d0, hd0⟩ := jsGcd_dvd_right n d
  set g := jsGcd n d with hgdef
  have hnq : n / g = n0 := by rw [hn0]; exact Int.mul_ediv_cancel_left _ hg
  have hdq : d / g = d0 := by rw [hd0]; exact Int.mul_ediv_cancel_left _ hg
  have hd0ne : d0 ≠ 0 := by
    intro h0
    apply hd
    rw [hd0, h0, mul_zero]
  have habs : n0.natAbs.gcd d0.natAbs = 1 := by
    have hgabs : g.natAbs = Nat.gcd n.natAbs d.natAbs := jsGcd_natAbs n d
    have hga : g.natAbs ≠ 0 := fun h => hg (Int.natAbs_eq_zero.mp h)
    have h1 : n.natAbs = g.natAbs * n0.natAbs := by rw [hn0, Int.natAbs_mul]
    have h2 : d.natAbs = g.natAbs * d0.natAbs := by rw [hd0, Int.natAbs_mul]
    have := Nat.coprime_div_gcd_div_gcd (m := n.natAbs) (n := d.natAbs)
      (Nat.pos_of_ne_zero (by rw [← hgabs]; exact hga))
    rwa [← hgabs, h1, h2, Nat.mul_div_cancel_left _ (Nat.pos_of_ne_zero hga),
      Nat.mul_div_cancel_left _ (Nat.pos_of_ne_zero hga)] at this
  rw [Rational.simplify]
  simp only [hnq, hdq]
  split
  · rename_i hneg
    refine ⟨show (0 : ℤ) < -d0 by omega, ?_⟩
    show Nat.gcd (-n0).natAbs (-d0).natAbs = 1
    simpa [Int.natAbs_neg] using habs
  · rename_i hpos
    have hdp : 0 < d0 := by
      rcases lt_trichotomy d0 0 with h | h | h
      · exact absurd h hpos
      · exact absurd h hd0ne
      · exact h
    exact ⟨hdp, habs⟩

/-- `simplify` is the identity on an already-simplified value. -/
lemma Rational.simplify_eq_self {r : Rational} (hd : 0 < r.den)
    (hg : Nat.gcd r.num.natAbs r.den.natAbs = 1) : r.simplify = r := by
  have habs : (jsGcd r.num r.den).natAbs = 1 := by rw [jsGcd_natAbs, hg]
  have : jsGcd r.num r.den = 1 ∨ jsGcd r.num r.den = -1 := Int.natAbs_eq_iff.mp habs |>.imp
    (fun h => by simpa using h) (fun h => by simpa using h)
  rw [Rational.simplify]
  rcases this with h1 | h1 <;> rw [h1]
  · simp only [Int.ediv_one]
    rw [if_neg (by omega)]
  · simp only [Int.ediv_neg, Int.ediv_one]
    rw [if_pos (by omega)]
    simp

/-- `simplify` does not change the real value `approx`. -/
lemma Rational.approx_simplify (r : Rational) : r.simplify.approx = r.approx := by
  rcases eq_or_ne (jsGcd r.num r.den) 0 with hg | hg
  · -- a zero gcd forces numerator and denominator both zero
    have habs := jsGcd_natAbs r.num r.den
    rw [hg] at habs
    have hn : r.num = 0 := Int.natAbs_eq_zero.mp (Nat.eq_zero_of_gcd_eq_zero_left habs.symm)
    have hd : r.den = 0 := Int.natAbs_eq_zero.mp (Nat.eq_zero_of_gcd_eq_zero_right habs.symm)
    rw [Rational.simplify]
    simp only [hg, hn, hd]
    norm_num [Rational.approx, hn, hd]
  · obtain ⟨n0, hn0⟩ := jsGcd_dvd_left r.num r.den
    obtain ⟨d0, hd0⟩ := jsGcd_dvd_right r.num r.den
    set g := jsGcd r.num r.den with hgdef
    have hnq : r.num / g = n0 := by rw [hn0]; exact Int.mul_ediv_cancel_left _ hg
    have hdq : r.den / g = d0 := by rw [hd0]; exact Int.mul_ediv_cancel_left _ hg
    have hgR : (g : ℝ) ≠ 0 := Int.cast_ne_zero.mpr hg
    have key : ∀ pp ee : ℤ, (Rational.approx ⟨n0, d0, pp, ee⟩) =
        Rational.approx ⟨r.num, r.den, pp, ee⟩ := by
      intro pp ee
      rw [Rational.approx, Rational.approx]
      simp only [hn0, hd0]
      push_cast
      rw [mul_assoc (g : ℝ), mul_assoc (g : ℝ), mul_div_mul_left _ _ hgR]
    rw [Rational.simplify]
    simp only [hnq, hdq]
    split
    · have : Rational.approx ⟨-n0, -d0, r.piF, r.eF⟩ =
          Rational.approx ⟨n0, d0, r.piF, r.eF⟩ := by
        rw [Rational.approx, Rational.approx]
        push_cast
        rw [neg_mul, neg_mul, neg_div_neg_eq]
      rw [this, key]
    · rw [key]

/-- The completed-value invariant of the spec: positive denominator coprime
to the numerator. -/
def RationalInv (r : Rational) : Prop :=
  0 < r.den ∧ Nat.gcd r.num.natAbs r.den.natAbs = 1

instance (r : Rational) : Decidable (RationalInv r) := by
  unfold RationalInv
  infer_instance

instance {ε α : Type} [DecidableEq ε] [DecidableEq α] : DecidableEq (Except ε α) := fun x y =>
  match x, y with
  | .ok u, .ok v =>
    if h : u = v then .isTrue (by rw [h]) else .isFalse (by intro hc; cases hc; exact h rfl)
  | .error u, .error v =>
    if h : u = v then .isTrue (by rw [h]) else .isFalse (by intro hc; cases hc; exact h rfl)
  | .ok _, .error _ => .isFalse (by intro hc; cases hc)
  | .error _, .ok _ => .isFalse (by intro hc; cases hc)

lemma exDo_ok {α β : Type} (a : α) (f : α → Except String β) :
    (do let x ← (Except.ok a : Except String α); f x) = f a := rfl

lemma exDo_error {α β : Type} (m : String) (f : α → Except String β) :
    (do let x ← (Except.error m : Except String α); f x) = .error m := rfl

lemma parseInput_int (n : ℤ) : parseInput (.num (n : ℚ)) = .ok ⟨n, 0, 0⟩ := by
  rw [parseInput]
  rw [if_pos (Rat.den_intCast n)]
  rw [Rat.num_intCast]

lemma floatStep_int (n : ℤ) (d : JSNum) :
    floatStep (.num (n : ℚ)) d = (.num (n : ℚ), d) := by
  simp only [floatStep]
  rw [if_pos (Rat.den_intCast n)]

/-- The constructor on two integer numbers never takes the split or float
paths and cannot fail. -/
lemma jsConstructor_int (n d p e : ℤ) :
    jsConstructor (.num (n : ℚ)) (.num (d : ℚ)) p e = .ok (mkR n d p e) := by
  simp only [jsConstructor, splitStep, floatStep_int]
  rw [parseInput_int, exDo_ok, parseInput_int, exDo_ok]
  simp [mkR]

/-- Simplifying (once more) a value built by an operation's constructor call
with a nonzero denominator yields the invariant. -/
lemma mkR_simplify_inv {n d : ℤ} (p e : ℤ) (hd : d ≠ 0) :
    RationalInv ((mkR n d p e).simplify) ∧ (mkR n d p e).simplify = mkR n d p e := by
  obtain ⟨h1, h2⟩ := Rational.simplify_inv (n := n) (d := d) p e hd
  have hself : (mkR n d p e).simplify = mkR n d p e :=
    Rational.simplify_eq_self h1 h2
  exact ⟨by rw [hself]; exact ⟨h1, h2⟩, hself⟩

/-- Fidelity of the exponential-notation branch, single-digit significand:
`new Rational(1e-7)` throws — `(1e-7).toString()` is `"1e-7"` with no dot,
so the non-integral rounded value itself reaches `_parseInput`'s integer
assert (the message renders the exact fraction per the file's convention). -/
lemma construct_small_float_error :
    jsConstructor (.num (mkRat 1 (10 ^ 7))) (.num 1) 0 0 =
      .error "Invalid number:1/10000000" := by
  with_unfolding_all rfl

/-- Fidelity of the exponential-notation branch, multi-digit significand:
`new Rational(1.5e-7)` throws — `"1.5e-7"` has a dot, the four characters
`5e-7` after it give mantissa length 4, and the scaled numerator
`1.5e-7 * 10^4 = 0.0015` is still not an integer. -/
lemma construct_small_float_dot_error :
    jsConstructor (.num (mkRat 15 (10 ^ 8))) (.num 1) 0 0 =
      .error "Invalid number:3/2000" := by
  with_unfolding_all rfl

/-- C2, counterexample input: both operands are completed values built from
integer pairs with nonzero denominator, yet `divide` by the zero value
completes with denominator `0`, violating `denominator > 0`. -/
theorem divide_by_zero_value_breaks_invariant :
    jsConstructor (.num 1) (.num 1) 0 0 = .ok (⟨1, 1, 0, 0⟩ : Rational) ∧
    jsConstructor (.num 0) (.num 1) 0 0 = .ok (⟨0, 1, 0, 0⟩ : Rational) ∧
    Rational.divide ⟨1, 1, 0, 0⟩ ⟨0, 1, 0, 0⟩ = .ok (⟨1, 0, 0, 0⟩ : Rational) ∧
    ¬ RationalInv ⟨1, 0, 0, 0⟩ := by
  refine ⟨?_, ?_, ?_, ?_⟩ <;> decide

/-- C2 (amended): the invariant `gcd(|numerator|, denominator) = 1 ∧
denominator > 0` holds after construction from an integer pair with nonzero
denominator, and is preserved by every successful `plus`, `minus` and
`times`, and by every successful `divide` whose divisor has a nonzero
numerator (dividing by a zero value instead completes with denominator 0). -/
theorem constructor_and_ops_invariant :
    (∀ (n d p e : ℤ) (r : Rational), d ≠ 0 →
      jsConstructor (.num (n : ℚ)) (.num (d : ℚ)) p e = .ok r → RationalInv r) ∧
    (∀ a b c : Rational, RationalInv a → RationalInv b →
      a.plus b = .ok c → RationalInv c) ∧
    (∀ a b c : Rational, RationalInv a → RationalInv b →
      a.minus b = .ok c → RationalInv c) ∧
    (∀ a b c : Rational, RationalInv a → RationalInv b →
      a.times b = .ok c → RationalInv c) ∧
    (∀ a b c : Rational, RationalInv a → RationalInv b → b.num ≠ 0 →
      a.divide b = .ok c → RationalInv c) := by
  have hmk : ∀ (n d p e : ℤ), d ≠ 0 → RationalInv (mkR n d p e) := by
    intro n d p e hd
    obtain ⟨h1, h2⟩ := Rational.simplify_inv (n := n) (d := d) p e hd
    exact ⟨h1, h2⟩
  refine ⟨?_, ?_, ?_, ?_, ?_⟩
  · intro n d p e r hd hok
    rw [jsConstructor_int] at hok
    cases hok
    exact hmk n d p e hd
  · intro a b c ha hb hok
    rw [Rational.plus] at hok
    split at hok
    · cases hok
    · cases hok
      exact (mkR_simplify_inv _ _ (mul_ne_zero ha.1.ne' hb.1.ne')).1
  · intro a b c ha hb hok
    rw [Rational.minus] at hok
    split at hok
    · cases hok
    · cases hok
      exact (mkR_simplify_inv _ _ (mul_ne_zero ha.1.ne' hb.1.ne')).1
  · intro a b c ha hb hok
    rw [Rational.times] at hok
    split at hok
    · cases hok
    · cases hok
      exact (mkR_simplify_inv _ _ (mul_ne_zero ha.1.ne' hb.1.ne')).1
  · intro a b c ha hb hbn hok
    rw [Rational.divide] at hok
    split at hok
    · cases hok
    · cases hok
      exact (mkR_simplify_inv _ _ (mul_ne_zero ha.1.ne' hbn)).1

/-- Witness for C2: concrete instances through every conjunct. -/
theorem constructor_and_ops_invariant_witness :
    RationalInv (⟨2, 3, 0, 0⟩ : Rational) ∧ RationalInv (⟨-1, 2, 1, 0⟩ : Rational) := by
  have h := constructor_and_ops_invariant
  constructor
  · exact h.1 4 6 0 0 ⟨2, 3, 0, 0⟩ (by decide) (by decide)
  · exact h.2.2.2.2 ⟨1, 1, 1, 0⟩ ⟨-2, 1, 0, 0⟩ ⟨-1, 2, 1, 0⟩
      (by decide) (by decide) (by decide) (by decide)

/-- C4, counterexample: `new Rational(5, 0)` does not raise any error; it
completes as the value `1/0`. -/
theorem construct_five_zero_den_ok :
    jsConstructor (.num 5) (.num 0) 0 0 = .ok (⟨1, 0, 0, 0⟩ : Rational) := by
  decide

/-- C4 (amended): constructing from a zero denominator never fails with
`InvalidValue`; for every nonzero integer numerator `n` the constructor
completes, simplifying `n/0` to the value `1/0`.  (For `n = 0` it also does
not throw: the JavaScript value completes with `NaN` fields.) -/
theorem construct_zero_den_ok (n p e : ℤ) (hn : n ≠ 0) :
    jsConstructor (.num (n : ℚ)) (.num 0) p e = .ok (⟨1, 0, p, e⟩ : Rational) := by
  have h0 : ((0 : ℤ) : ℚ) = (0 : ℚ) := by norm_num
  rw [← h0, jsConstructor_int]
  have : mkR n 0 p e = ⟨1, 0, p, e⟩ := by
    rw [mkR, Rational.simplify]
    have hg : jsGcd n 0 = n := by rw [jsGcd_eq]; simp
    simp only [hg, Int.ediv_self hn, Int.zero_ediv]
    norm_num
  rw [this]

/-- Witness for C4 at `n = -7`. -/
theorem construct_zero_den_ok_witness :
    jsConstructor (.num (-7 : ℚ)) (.num 0) 0 0 = .ok (⟨1, 0, 0, 0⟩ : Rational) := by
  have h : ((-7 : ℤ) : ℚ) = (-7 : ℚ) := by norm_num
  rw [← h]
  exact construct_zero_den_ok (-7) 0 0 (by decide)

/-- C3, counterexample: the exponent `-1` is an integer with zero symbolic
factor, yet `power` on the base `1/2` does not raise/scale the fields — the
denominator `2 ** -1 = 0.5` fails the constructor's integer assertion
(JavaScript throws `Invalid number:0.5`; we render the fraction). -/
theorem power_negative_exponent_error :
    Rational.power ⟨1, 2, 0, 0⟩ ⟨-1, 1, 0, 0⟩ = .error "Invalid number:1/2" := by
  rw [Rational.power, if_neg (by decide)]
  have e1 : jsPowQ (1 : ℤ) (-1) = .ok (1 : ℚ) := by
    rw [jsPowQ, if_neg (by decide)]
    norm_num
  have e2 : jsPowQ (2 : ℤ) (-1) = .ok (mkRat 1 2) := by
    rw [jsPowQ, if_neg (by decide)]
    rw [Rat.mkRat_eq_div]
    norm_num
  show (do
    let nq ← jsPowQ (1 : ℤ) (-1)
    let dq ← jsPowQ (2 : ℤ) (-1)
    let r ← jsConstructor (.num nq) (.num dq) (0 * -1) (0 * -1)
    Except.ok r.simplify) = Except.error "Invalid number:1/2"
  rw [e1, exDo_ok, e2, exDo_ok]
  have e3 : jsConstructor (.num (1 : ℚ)) (.num (mkRat 1 2)) (0 * -1) (0 * -1) =
      .error "Invalid number:1/2" := by
    decide
  rw [e3, exDo_error]

/-- C3 (amended): for every completed base and every nonnegative integer,
symbol-free exponent `k`, `power` raises numerator and denominator to `k`
and scales both symbol factors by `k`; a non-integer or symbolic exponent
fails with the unsupported-operation error.  (A negative integer exponent
instead goes through the constructor's float-reconstruction path, which can
fail or approximate.) -/
theorem power_spec :
    (∀ (a : Rational) (k : ℤ), 0 < a.den → Nat.gcd a.num.natAbs a.den.natAbs = 1 → 0 ≤ k →
      a.power ⟨k, 1, 0, 0⟩ =
        .ok ⟨a.num ^ k.toNat, a.den ^ k.toNat, a.piF * k, a.eF * k⟩) ∧
    (∀ a b : Rational, (b.den ≠ 1 ∨ b.eF ≠ 0 ∨ b.piF ≠ 0) →
      a.power b = .error "Raising to a non-integer power is not supported.") := by
  constructor
  · intro a k hd hg hk
    have hcast : ∀ m : ℤ, ((m : ℚ)) ^ k = ((m ^ k.toNat : ℤ) : ℚ) := by
      intro m
      conv_lhs => rw [← Int.toNat_of_nonneg hk]
      rw [zpow_natCast]
      push_cast
      ring
    have hnk : ¬(a.num = 0 ∧ k < 0) := fun h => absurd h.2 (not_lt.mpr hk)
    have hdk : ¬(a.den = 0 ∧ k < 0) := fun h => absurd h.2 (not_lt.mpr hk)
    have h1 : jsPowQ a.num k = .ok ((a.num ^ k.toNat : ℤ) : ℚ) := by
      rw [jsPowQ, if_neg hnk, hcast]
    have h2 : jsPowQ a.den k = .ok ((a.den ^ k.toNat : ℤ) : ℚ) := by
      rw [jsPowQ, if_neg hdk, hcast]
    have hinv : RationalInv ⟨a.num ^ k.toNat, a.den ^ k.toNat, a.piF * k, a.eF * k⟩ := by
      refine ⟨pow_pos hd _, ?_⟩
      show Nat.gcd (a.num ^ k.toNat).natAbs (a.den ^ k.toNat).natAbs = 1
      rw [Int.natAbs_pow, Int.natAbs_pow]
      exact Nat.Coprime.pow _ _ hg
    rw [Rational.power, if_neg (by simp)]
    show (do
      let nq ← jsPowQ a.num k
      let dq ← jsPowQ a.den k
      let r ← jsConstructor (.num nq) (.num dq) (a.piF * k) (a.eF * k)
      Except.ok r.simplify) = _
    rw [h1, exDo_ok, h2, exDo_ok, jsConstructor_int, exDo_ok]
    have hmk : mkR (a.num ^ k.toNat) (a.den ^ k.toNat) (a.piF * k) (a.eF * k) =
        ⟨a.num ^ k.toNat, a.den ^ k.toNat, a.piF * k, a.eF * k⟩ := by
      rw [mkR]
      exact Rational.simplify_eq_self hinv.1 hinv.2
    rw [hmk, Rational.simplify_eq_self hinv.1 hinv.2]
  · intro a b hb
    rw [Rational.power, if_pos hb]

/-- Witness for C3: `ExactNumber("pi").power(ExactNumber(3))` is `π³` and
`ExactNumber(3).power(ExactNumber(1,4))` raises the unsupported-operation
error, instantiating both halves of `power_spec`. -/
theorem power_spec_witness :
    jsConstructor (.str "pi") (.num 1) 0 0 = .ok (⟨1, 1, 1, 0⟩ : Rational) ∧
    Rational.power ⟨1, 1, 1, 0⟩ ⟨3, 1, 0, 0⟩ = .ok (⟨1, 1, 3, 0⟩ : Rational) ∧
    Rational.approx ⟨1, 1, 3, 0⟩ = Real.pi ^ (3 : ℕ) ∧
    jsConstructor (.num 1) (.num 4) 0 0 = .ok (⟨1, 4, 0, 0⟩ : Rational) ∧
    Rational.power ⟨3, 1, 0, 0⟩ ⟨1, 4, 0, 0⟩ =
      .error "Raising to a non-integer power is not supported." := by
  refine ⟨by decide, ?_, ?_, by decide, ?_⟩
  · have h := power_spec.1 ⟨1, 1, 1, 0⟩ 3 (by decide) (by decide) (by decide)
    norm_num at h
    exact h
  · rw [Rational.approx]
    norm_num
    norm_cast
  · exact power_spec.2 ⟨3, 1, 0, 0⟩ ⟨1, 4, 0, 0⟩ (by decide)

/-- C5, counterexample: the token `"-"` has neither a digits group nor a
symbol (the pattern matches it with every group absent), yet construction
succeeds and yields `-1`. -/
theorem dash_token_parses :
    jsMatchToken "-" = some (true, none, none) ∧
    jsConstructor (.str "-") (.num 1) 0 0 = .ok (⟨-1, 1, 0, 0⟩ : Rational) := by
  constructor <;> decide

lemma tokenCore_none_none {cs : List Char} (h : tokenCore cs = some (none, none)) :
    cs = [] := by
  simp only [tokenCore] at h
  split at h
  · rename_i hrest
    simp only [Option.some.injEq, Prod.mk.injEq] at h
    obtain ⟨hds, -⟩ := h
    have htake : cs.takeWhile (fun c => c.isDigit) = [] := by
      by_cases hemp : (cs.takeWhile (fun c => c.isDigit)).isEmpty
      · exact List.isEmpty_iff.mp hemp
      · rw [if_neg hemp] at hds
        cases hds
    have := List.takeWhile_append_dropWhile (p := fun c => c.isDigit) (l := cs)
    rw [htake, hrest] at this
    simpa using this.symm
  · split at h
    · simp at h
    · split at h
      · simp at h
      · cases h

lemma matchToken_none_none {s : String} {neg : Bool}
    (h : jsMatchToken s = some (neg, none, none)) : s = "" ∨ s = "-" := by
  simp only [jsMatchToken] at h
  cases hh : (s.data.head? == some '-') with
  | false =>
    rw [hh] at h
    simp only [Bool.false_eq_true, if_false] at h
    left
    cases htc : tokenCore s.data with
    | none =>
      rw [htc] at h
      cases h
    | some pr =>
      obtain ⟨dsOpt, symOpt⟩ := pr
      rw [htc] at h
      simp only [Option.some.injEq, Prod.mk.injEq] at h
      obtain ⟨-, hds, hsym⟩ := h
      subst hds
      subst hsym
      have : s.data = [] := tokenCore_none_none htc
      cases s with
      | mk l => simp_all
  | true =>
    rw [hh] at h
    simp only [if_true] at h
    right
    cases htc : tokenCore s.data.tail with
    | none =>
      rw [htc] at h
      cases h
    | some pr =>
      obtain ⟨dsOpt, symOpt⟩ := pr
      rw [htc] at h
      simp only [Option.some.injEq, Prod.mk.injEq] at h
      obtain ⟨-, hds, hsym⟩ := h
      subst hds
      subst hsym
      have htail : s.data.tail = [] := tokenCore_none_none htc
      have hhead : s.data.head? = some '-' := beq_iff_eq.mp hh
      have hcons : s.data = '-' :: s.data.tail := (List.cons_head?_tail hhead).symm
      rw [htail] at hcons
      cases s with
      | mk l =>
        simp only at hcons
        rw [show ("-" : String) = ⟨['-']⟩ from rfl]
        exact congrArg String.mk hcons

lemma parseInput_plain {s : String}
    (h2 : jsMatchToken s = none ∨ ∃ neg, jsMatchToken s = some (neg, none, none))
    (hne : s ≠ "-") :
    parseInput (.str s) = .error ("Invalid number:" ++ s) := by
  rw [parseInput]
  by_cases hse : s = ""
  · rw [if_pos hse]
  · rw [if_neg hse]
    rcases h2 with hnone | ⟨neg, hsome⟩
    · rw [hnone]
    · rcases matchToken_none_none hsome with h | h
      · exact absurd h hse
      · exact absurd h hne

lemma jsSplitSlash_none {s : String} (h : ∀ c ∈ s.data, c ≠ '/') :
    jsSplitSlash s = none := by
  rw [jsSplitSlash]
  have hfil : (List.range s.data.length).filter
      (fun i => (s.data.getD i ' ' == '/') && decide (1 ≤ i) &&
        decide (i + 1 < s.data.length)) = [] := by
    rw [List.filter_eq_nil]
    intro i hi
    simp only [Bool.and_eq_true, beq_iff_eq, decide_eq_true_eq]
    rintro ⟨⟨hget, -⟩, hlt⟩
    have hilen : i < s.data.length := by omega
    have hmem : s.data.getD i ' ' ∈ s.data := by
      rw [List.getD_eq_getElem s.data ' ' hilen]
      exact List.getElem_mem hilen
    exact absurd hget (h _ hmem)
  rw [hfil]
  rfl

/-- C5 (amended): a single `/`-free token whose pattern match has neither a
digits group nor a symbol fails with `Invalid number` — except the token
`"-"`, which matches with every group absent and is accepted as `-1`. -/
theorem plain_token_invalid (s : String)
    (h1 : ∀ c ∈ s.data, c ≠ '/')
    (h2 : jsMatchToken s = none ∨ ∃ neg, jsMatchToken s = some (neg, none, none))
    (hne : s ≠ "-") :
    jsConstructor (.str s) (.num 1) 0 0 = .error ("Invalid number:" ++ s) := by
  have hsplit := jsSplitSlash_none h1
  simp only [jsConstructor, splitStep, hsplit, floatStep]
  rw [parseInput_plain h2 hne, exDo_error]

/-- Witness for C5 at the token `"x"`. -/
theorem plain_token_invalid_witness :
    jsConstructor (.str "x") (.num 1) 0 0 = .error "Invalid number:x" := by
  exact plain_token_invalid "x" (by decide) (Or.inl (by decide)) (by decide)

/-- C9: any two values completed from integer pairs with nonzero
denominators whose numerators are zero compare `equal`, whatever their
recorded symbol factors. -/
theorem zero_equal_symbol_agnostic (n1 d1 p1 e1 n2 d2 p2 e2 : ℤ) (a b : Rational)
    (hd1 : d1 ≠ 0) (hd2 : d2 ≠ 0)
    (ha : jsConstructor (.num (n1 : ℚ)) (.num (d1 : ℚ)) p1 e1 = .ok a)
    (hb : jsConstructor (.num (n2 : ℚ)) (.num (d2 : ℚ)) p2 e2 = .ok b)
    (hna : a.num = 0) (hnb : b.num = 0) :
    a.equal b = true := by
  rw [jsConstructor_int] at ha hb
  have hden : ∀ (r : Rational), RationalInv r → r.num = 0 → r.den = 1 := by
    intro r hr h0
    have h1 : r.den.natAbs = 1 := by
      have := hr.2
      rw [h0] at this
      simpa using this
    rcases Int.natAbs_eq_iff.mp h1 with h | h
    · simpa using h
    · have hpos := hr.1
      rw [h] at hpos
      norm_num at hpos
  have haa : mkR n1 d1 p1 e1 = a := by injection ha
  have hbb : mkR n2 d2 p2 e2 = b := by injection hb
  subst haa
  subst hbb
  have hia : RationalInv (mkR n1 d1 p1 e1) :=
    ⟨(Rational.simplify_inv p1 e1 hd1).1, (Rational.simplify_inv p1 e1 hd1).2⟩
  have hib : RationalInv (mkR n2 d2 p2 e2) :=
    ⟨(Rational.simplify_inv p2 e2 hd2).1, (Rational.simplify_inv p2 e2 hd2).2⟩
  rw [Rational.equal, hna, hnb, hden _ hia hna, hden _ hib hnb]
  simp

/-- Witness for C9: `ExactNumber(0,1,1).equals(ExactNumber(0,1,0,1))`. -/
theorem zero_equal_symbol_agnostic_witness :
    Rational.equal ⟨0, 1, 1, 0⟩ ⟨0, 1, 0, 1⟩ = true := by
  exact zero_equal_symbol_agnostic 0 1 1 0 0 1 0 1 ⟨0, 1, 1, 0⟩ ⟨0, 1, 0, 1⟩
    (by decide) (by decide) (by decide) (by decide) (by decide) (by decide)

/-- Helper: `equal` is reflexive. -/
lemma Rational.equal_refl (r : Rational) : r.equal r = true := by
  rw [Rational.equal]
  simp

/-- C10: multiplication is commutative up to `equal` — whenever both
products complete, they compare equal. -/
theorem times_comm_equal (a b c c' : Rational)
    (h1 : a.times b = .ok c) (h2 : b.times a = .ok c') : c.equal c' = true := by
  rw [Rational.times] at h1 h2
  split at h1
  · cases h1
  · split at h2
    · cases h2
    · cases h1
      cases h2
      have hsym : mkR (a.num * b.num) (a.den * b.den) (a.piF + b.piF) (a.eF + b.eF) =
          mkR (b.num * a.num) (b.den * a.den) (b.piF + a.piF) (b.eF + a.eF) := by
        rw [mul_comm a.num, mul_comm a.den, add_comm a.piF, add_comm a.eF]
      rw [hsym]
      exact Rational.equal_refl _

/-- Witness for C10 at `2/3 · 4/5`. -/
theorem times_comm_equal_witness :
    Rational.equal ⟨8, 15, 0, 0⟩ ⟨8, 15, 0, 0⟩ = true := by
  exact times_comm_equal ⟨2, 3, 0, 0⟩ ⟨4, 5, 0, 0⟩ ⟨8, 15, 0, 0⟩ ⟨8, 15, 0, 0⟩
    (by decide) (by decide)

/-! ## The MathML expression walker (mathml.js) -/

/-- An XML element as `DOMParser` hands it to the MathML walkers: tag name,
text content, and element children. -/
inductive XNode where
  | node (tag : String) (text : String) (children : List XNode)

def XNode.tag : XNode → String
  | .node t _ _ => t

def XNode.text : XNode → String
  | .node _ s _ => s

def XNode.children : XNode → List XNode
  | .node _ _ cs => cs

/-- A JavaScript value produced by a compiled MathML function: a number, or
an array (from `<list>`).  `undefined` stands for the garbage JavaScript
coercion produces when an arithmetic operator meets an array; no theorem
reaches it, because exact evaluation throws on tuple arithmetic. -/
inductive JSV where
  | num (r : ℝ)
  | arr (l : List JSV)
  | undefined

/-- `a ** b` on JavaScript numbers, idealized as real exponentiation
`Real.rpow` (they agree on all inputs our theorems touch, in particular on
integer exponents). -/
noncomputable def jsPow (a b : ℝ) : ℝ := a ^ b

noncomputable def jsvAdd : JSV → JSV → JSV
  | .num a, .num b => .num (a + b)
  | _, _ => .undefined

noncomputable def jsvSub : JSV → JSV → JSV
  | .num a, .num b => .num (a - b)
  | _, _ => .undefined

noncomputable def jsvNeg : JSV → JSV
  | .num a => .num (-a)
  | _ => .undefined

noncomputable def jsvMul : JSV → JSV → JSV
  | .num a, .num b => .num (a * b)
  | _, _ => .undefined

noncomputable def jsvDiv : JSV → JSV → JSV
  | .num a, .num b => .num (a / b)
  | _, _ => .undefined

noncomputable def jsvPow : JSV → JSV → JSV
  | .num a, .num b => .num (jsPow a b)
  | _, _ => .undefined

noncomputable def jsvUn (g : ℝ → ℝ) : JSV → JSV
  | .num a => .num (g a)
  | _ => .undefined

/-- The error text of `MathML._assertChildren`. -/
def assertChildrenMsg (action : String) (count : ℕ) : String :=
  "<apply><" ++ action ++ "/> must have " ++ toString (count - 1) ++ " children."

/-- A function argument fetched as `args[i]`; the default is never reached
because every access is behind the matching arity assertion. -/
noncomputable def argF (args : List (ℝ → JSV)) (i : ℕ) : ℝ → JSV :=
  args.getD i (fun _ => .undefined)

/-- The `switch(action)` of `MathML._parseApplyToFunction`, applied after
the argument closures have been compiled.  `count` is
`node.childElementCount` (operator element included). -/
noncomputable def applyCombineF (action : String) (count : ℕ)
    (args : List (ℝ → JSV)) : Except String (ℝ → JSV) :=
  if action = "plus" then
    if count = 3 then .ok (fun x => jsvAdd (argF args 0 x) (argF args 1 x))
    else .error (assertChildrenMsg "plus" 3)
  else if action = "minus" then
    if count = 3 then .ok (fun x => jsvSub (argF args 0 x) (argF args 1 x))
    else if count = 2 then .ok (fun x => jsvNeg (argF args 0 x))
    else .error "<apply><minus/> must have 2 or 3 children."
  else if action = "times" then
    if count = 3 then .ok (fun x => jsvMul (argF args 0 x) (argF args 1 x))
    else .error (assertChildrenMsg "times" 3)
  else if action = "divide" then
    if count = 3 then .ok (fun x => jsvDiv (argF args 0 x) (argF args 1 x))
    else .error (assertChildrenMsg "divide" 3)
  else if action = "power" then
    if count = 3 then .ok (fun x => jsvPow (argF args 0 x) (argF args 1 x))
    else .error (assertChildrenMsg "power" 3)
  else if action = "root" then
    if count = 3 then .ok (fun x => jsvPow (argF args 1 x) (jsvDiv (.num 1) (argF args 0 x)))
    else .error (assertChildrenMsg "root" 3)
  else if action = "sin" then
    if count = 2 then .ok (fun x => jsvUn Real.sin (argF args 0 x))
    else .error (assertChildrenMsg "sin" 2)
  else if action = "cos" then
    if count = 2 then .ok (fun x => jsvUn Real.cos (argF args 0 x))
    else .error (assertChildrenMsg "cos" 2)
  else if action = "tan" then
    if count = 2 then .ok (fun x => jsvUn Real.tan (argF args 0 x))
    else .error (assertChildrenMsg "tan" 2)
  else if action = "abs" then
    if count = 2 then .ok (fun x => jsvUn (fun a => |a|) (argF args 0 x))
    else .error (assertChildrenMsg "abs" 2)
  else if action = "ln" then
    if count = 2 then .ok (fun x => jsvUn Real.log (argF args 0 x))
    else .error (assertChildrenMsg "ln" 2)
  else if action = "log" then
    if count = 2 then .ok (fun x => jsvDiv (jsvUn Real.log (argF args 0 x)) (.num (Real.log 10)))
    else if count = 3 then
      .ok (fun x => jsvDiv (jsvUn Real.log (argF args 1 x)) (jsvUn Real.log (argF args 0 x)))
    else .error "<apply><log/> must have 1 or 2 children."
  else .error ("Unknown <apply> action: " ++ action)

/-- The `<cn>` text check `/^-?[0-9]+(\.[0-9]+)?$/` together with
`parseFloat`: the exact decimal value, or `none` on a regex mismatch. -/
def parseCn (s : String) : Option ℚ :=
  let cs := s.data
  let neg := cs.head? == some '-'
  let cs1 := if neg then cs.tail else cs
  let ipart := cs1.takeWhile (fun c => c.isDigit)
  let rest := cs1.dropWhile (fun c => c.isDigit)
  if ipart.isEmpty then none
  else
    match rest with
    | [] =>
      let v : ℚ := ((parseIntDigits ipart : ℤ) : ℚ)
      some (if neg then -v else v)
    | '.' :: fracs =>
      if fracs.isEmpty then none
      else if fracs.all (fun c => c.isDigit) then
        let m : ℤ := parseIntDigits ipart * 10 ^ fracs.length + parseIntDigits fracs
        let v : ℚ := mkRat m (10 ^ fracs.length)
        some (if neg then -v else v)
      else none
    | _ => none

mutual

/-- `MathML._parseNodeToFunction`: compile a node into a closure over the
free variable. -/
noncomputable def parseNodeToFunction : XNode → Except String (ℝ → JSV)
  | .node tag txt cs =>
    if tag = "apply" then
      if cs.length < 2 then .error "<apply> must have at least two children."
      else
        match cs with
        | [] => .error "<apply> must have at least two children."
        | op :: argNodes => do
          let args ← parseListToFunction argNodes
          applyCombineF op.tag cs.length args
    else if tag = "ci" then
      if txt = "x" then .ok (fun x => .num x)
      else .error "<ci> can only take 'x' in <math-plot>."
    else if tag = "cn" then
      match parseCn txt with
      | some q => .ok (fun _ => .num (q : ℝ))
      | none => .error "<cn> must contain a number."
    else if tag = "degree" ∨ tag = "logbase" then
      match cs with
      | c :: _ => parseNodeToFunction c
      | [] => .error "TypeError: node.firstChild is null"
    else if tag = "pi" then .ok (fun _ => .num Real.pi)
    else if tag = "exponentiale" then .ok (fun _ => .num (Real.exp 1))
    else if tag = "list" then do
      let fs ← parseListToFunction cs
      .ok (fun x => .arr (fs.map (fun f => f x)))
    else .error ("Unknown MathML element: " ++ tag)

/-- `argNodes.map(this._parseNodeToFunction, this)` — a thrown error aborts
at the first failing element. -/
noncomputable def parseListToFunction : List XNode → Except String (List (ℝ → JSV))
  | [] => .ok []
  | c :: rest => do
    let f ← parseNodeToFunction c
    let fs ← parseListToFunction rest
    .ok (f :: fs)

end

/-- The result of exact evaluation: a `Rational` or a `RationalTuple` (whose
elements may themselves be tuples, for nested `<list>`s). -/
inductive RV where
  | scalar (r : Rational)
  | tuple (l : List RV)

/-- `args[0].plus(args[1])` at the `RV` level.  A `RationalTuple` receiver
has no `plus` method (TypeError); a tuple argument is fed to
`new Rational(...)`, whose `_parseInput` throws on a non-number/non-string. -/
def rvBin (g : Rational → Rational → Except String Rational) (mname : String) :
    RV → RV → Except String RV
  | .scalar a, .scalar b => do
    let c ← g a b
    .ok (.scalar c)
  | .scalar _, .tuple _ => .error "Invalid number:[object Object]"
  | .tuple _, _ => .error ("TypeError: args[0]." ++ mname ++ " is not a function")

/-- `args[0].times(-1)` — the unary-minus path.  The number `-1` is promoted
via `new Rational(-1)`. -/
def rvNeg : RV → Except String RV
  | .scalar a => do
    let c ← a.times (mkR (-1) 1 0 0)
    .ok (.scalar c)
  | .tuple _ => .error "TypeError: args[0].times is not a function"

/-- An exact-evaluation argument fetched as `args[i]`; the default is never
reached because every access is behind the matching arity assertion. -/
def argR (args : List RV) (i : ℕ) : RV :=
  args.getD i (.scalar ⟨0, 1, 0, 0⟩)

/-- The `switch(action)` of `MathML._parseApplyToRational`: only the five
exact operators are supported. -/
def applyCombineR (action : String) (count : ℕ) (args : List RV) :
    Except String RV :=
  if action = "plus" then
    if count = 3 then rvBin Rational.plus "plus" (argR args 0) (argR args 1)
    else .error (assertChildrenMsg "plus" 3)
  else if action = "minus" then
    if count = 3 then rvBin Rational.minus "minus" (argR args 0) (argR args 1)
    else if count = 2 then rvNeg (argR args 0)
    else .error "<apply><minus/> must have 2 or 3 children."
  else if action = "times" then
    if count = 3 then rvBin Rational.times "times" (argR args 0) (argR args 1)
    else .error (assertChildrenMsg "times" 3)
  else if action = "divide" then
    if count = 3 then rvBin Rational.divide "divide" (argR args 0) (argR args 1)
    else .error (assertChildrenMsg "divide" 3)
  else if action = "power" then
    if count = 3 then rvBin Rational.power "power" (argR args 0) (argR args 1)
    else .error (assertChildrenMsg "power" 3)
  else .error ("Unknown <apply> action: " ++ action)

mutual

/-- `MathML._parseNodeToRational`: evaluate a node exactly.  Note: no `ci`,
no `degree`/`logbase` (the `degree` case is commented out in the source),
and only the five operators above inside `apply`. -/
def parseNodeToRational : XNode → Except String RV
  | .node tag txt cs =>
    if tag = "apply" then
      if cs.length < 2 then .error "<apply> must have at least two children."
      else
        match cs with
        | [] => .error "<apply> must have at least two children."
        | op :: argNodes => do
          let args ← parseListToRational argNodes
          applyCombineR op.tag cs.length args
    else if tag = "cn" then
      match parseCn txt with
      | some q => do
        let r ← jsConstructor (.num q) (.num 1) 0 0
        .ok (.scalar r)
      | none => .error "<cn> must contain a number."
    else if tag = "pi" then do
      let r ← jsConstructor (.num 1) (.num 1) 1 0
      .ok (.scalar r)
    else if tag = "exponentiale" then do
      let r ← jsConstructor (.num 1) (.num 1) 0 1
      .ok (.scalar r)
    else if tag = "list" then do
      let els ← parseListToRational cs
      .ok (.tuple els)
    else .error ("Unknown MathML element: " ++ tag)

def parseListToRational : List XNode → Except String (List RV)
  | [] => .ok []
  | c :: rest => do
    let v ← parseNodeToRational c
    let vs ← parseListToRational rest
    .ok (v :: vs)

end

/-! ### A checked restriction of exact evaluation

`parseNodeToRationalFin` runs the same evaluation as
`parseNodeToRational`, but additionally fails whenever the evaluation
leaves the region in which the idealized real-number semantics is exact:
a `<cn>` literal altered by the constructor's 9-digit rounding, a
non-integer `<cn>` literal below `1e-6` in magnitude (JavaScript prints it
in exponential notation and the constructor throws), a `power` whose
integer powers of numerator/denominator are not integral (the
float-reconstruction path), or any operation completing with a zero
denominator (JavaScript infinities).  Every success of the restricted
evaluator is a success of `parseNodeToRational` with the same value. -/

mutual

/-- Every scalar inside the value has a nonzero denominator. -/
def RV.denNZ : RV → Bool
  | .scalar r => r.den != 0
  | .tuple l => RVList.denNZ l

def RVList.denNZ : List RV → Bool
  | [] => true
  | v :: vs => RV.denNZ v && RVList.denNZ vs

end

/-- `power` restricted to the exactly-representable cases. -/
def rvPowerFin : RV → RV → Except String RV
  | .scalar a, .scalar b =>
    if b.den = 1 ∧ b.piF = 0 ∧ b.eF = 0 ∧ ¬(a.num = 0 ∧ b.num < 0) ∧
        ((a.num : ℚ) ^ b.num).den = 1 ∧ ((a.den : ℚ) ^ b.num).den = 1 then
      rvBin Rational.power "power" (.scalar a) (.scalar b)
    else .error "power outside the exact fragment"
  | .scalar _, .tuple t => rvBin Rational.power "power" (.scalar ⟨0, 1, 0, 0⟩) (.tuple t)
  | .tuple t, b => rvBin Rational.power "power" (.tuple t) b

/-- `applyCombineR`, with `power` restricted. -/
def applyCombineRFin (action : String) (count : ℕ) (args : List RV) :
    Except String RV :=
  if action = "power" then
    if count = 3 then rvPowerFin (argR args 0) (argR args 1)
    else .error (assertChildrenMsg "power" 3)
  else applyCombineR action count args

mutual

def parseNodeToRationalFin : XNode → Except String RV
  | .node tag txt cs =>
    if tag = "apply" then
      if cs.length < 2 then .error "<apply> must have at least two children."
      else
        match cs with
        | [] => .error "<apply> must have at least two children."
        | op :: argNodes => do
          let args ← parseListToRationalFin argNodes
          let rv ← applyCombineRFin op.tag cs.length args
          if rv.denNZ then .ok rv else .error "zero denominator"
    else if tag = "cn" then
      match parseCn txt with
      | some q =>
        if q.den = 1 ∨
            (((jsRound (q * 10 ^ 9) : ℚ) / 10 ^ 9) = q ∧ 1 / 10 ^ 6 ≤ |q|) then do
          let r ← jsConstructor (.num q) (.num 1) 0 0
          .ok (.scalar r)
        else .error "literal altered by 9-digit rounding"
      | none => .error "<cn> must contain a number."
    else if tag = "pi" then do
      let r ← jsConstructor (.num 1) (.num 1) 1 0
      .ok (.scalar r)
    else if tag = "exponentiale" then do
      let r ← jsConstructor (.num 1) (.num 1) 0 1
      .ok (.scalar r)
    else if tag = "list" then do
      let els ← parseListToRationalFin cs
      .ok (.tuple els)
    else .error ("Unknown MathML element: " ++ tag)

def parseListToRationalFin : List XNode → Except String (List RV)
  | [] => .ok []
  | c :: rest => do
    let v ← parseNodeToRationalFin c
    let vs ← parseListToRationalFin rest
    .ok (v :: vs)

end

mutual

/-- The `approx` of an exact value, matching the array a compiled function
returns for a `<list>`. -/
noncomputable def rvJS : RV → JSV
  | .scalar r => .num r.approx
  | .tuple l => .arr (rvJSList l)

noncomputable def rvJSList : List RV → List JSV
  | [] => []
  | v :: vs => rvJS v :: rvJSList vs

end

/-! ### Agreement of the two evaluators, operation by operation -/

/-- The symbolic part of `approx`. -/
noncomputable def symS (p e : ℤ) : ℝ := Real.pi ^ p * Real.exp 1 ^ e

lemma approx_def2 (a : Rational) :
    a.approx = a.num * symS a.piF a.eF / a.den := by
  rw [Rational.approx, symS, mul_assoc]

lemma symS_ne_zero (p e : ℤ) : symS p e ≠ 0 :=
  mul_ne_zero (zpow_ne_zero _ Real.pi_ne_zero) (zpow_ne_zero _ (Real.exp_ne_zero 1))

lemma symS_zero : symS 0 0 = 1 := by
  rw [symS]
  norm_num

lemma symS_add (p1 e1 p2 e2 : ℤ) :
    symS (p1 + p2) (e1 + e2) = symS p1 e1 * symS p2 e2 := by
  rw [symS, symS, symS, zpow_add₀ Real.pi_ne_zero, zpow_add₀ (Real.exp_ne_zero 1)]
  ring

lemma symS_sub (p1 e1 p2 e2 : ℤ) :
    symS (p1 - p2) (e1 - e2) = symS p1 e1 / symS p2 e2 := by
  rw [symS, symS, symS, zpow_sub₀ Real.pi_ne_zero, zpow_sub₀ (Real.exp_ne_zero 1)]
  rw [div_mul_div_comm]

lemma symS_mul_right (p e k : ℤ) : symS (p * k) (e * k) = symS p e ^ k := by
  rw [symS, symS, mul_zpow]
  rw [← zpow_mul, ← zpow_mul]

/-- The common shape of every operation result: constructor plus an extra
`simplify`. -/
lemma mkRs_approx (n d p e : ℤ) :
    ((mkR n d p e).simplify).approx = Rational.approx ⟨n, d, p, e⟩ := by
  rw [Rational.approx_simplify, mkR, Rational.approx_simplify]

lemma mkRs_den_nz {d : ℤ} (n p e : ℤ) (hd : d ≠ 0) :
    ((mkR n d p e).simplify).den ≠ 0 :=
  (mkR_simplify_inv p e hd).1.1.ne'

lemma simplify_den_zero {r : Rational} (h : r.den = 0) : r.simplify.den = 0 := by
  rw [Rational.simplify]
  simp only [h, Int.zero_ediv]
  rw [if_neg (by omega)]

lemma approx_mk (n d p e : ℤ) :
    Rational.approx ⟨n, d, p, e⟩ = n * symS p e / d := by
  simp [Rational.approx, symS, mul_assoc]

lemma plus_agree {a b c : Rational} (hda : a.den ≠ 0) (hdb : b.den ≠ 0)
    (h : a.plus b = .ok c) : c.approx = a.approx + b.approx ∧ c.den ≠ 0 := by
  rw [Rational.plus] at h
  split at h
  · cases h
  · rename_i hguard
    push_neg at hguard
    obtain ⟨hp, he⟩ := hguard
    cases h
    refine ⟨?_, mkRs_den_nz _ _ _ (mul_ne_zero hda hdb)⟩
    rw [mkRs_approx, approx_mk, approx_def2, approx_def2, ← hp, ← he]
    have hd1 : (a.den : ℝ) ≠ 0 := Int.cast_ne_zero.mpr hda
    have hd2 : (b.den : ℝ) ≠ 0 := Int.cast_ne_zero.mpr hdb
    push_cast
    field_simp
    ring

lemma minus_agree {a b c : Rational} (hda : a.den ≠ 0) (hdb : b.den ≠ 0)
    (h : a.minus b = .ok c) : c.approx = a.approx - b.approx ∧ c.den ≠ 0 := by
  rw [Rational.minus] at h
  split at h
  · cases h
  · rename_i hguard
    push_neg at hguard
    obtain ⟨hp, he⟩ := hguard
    cases h
    refine ⟨?_, mkRs_den_nz _ _ _ (mul_ne_zero hda hdb)⟩
    rw [mkRs_approx, approx_mk, approx_def2, approx_def2, ← hp, ← he]
    have hd1 : (a.den : ℝ) ≠ 0 := Int.cast_ne_zero.mpr hda
    have hd2 : (b.den : ℝ) ≠ 0 := Int.cast_ne_zero.mpr hdb
    push_cast
    field_simp
    ring

lemma times_agree {a b c : Rational} (hda : a.den ≠ 0) (hdb : b.den ≠ 0)
    (h : a.times b = .ok c) : c.approx = a.approx * b.approx ∧ c.den ≠ 0 := by
  rw [Rational.times] at h
  split at h
  · cases h
  · cases h
    refine ⟨?_, mkRs_den_nz _ _ _ (mul_ne_zero hda hdb)⟩
    rw [mkRs_approx, approx_mk, approx_def2, approx_def2, symS_add]
    have hd1 : (a.den : ℝ) ≠ 0 := Int.cast_ne_zero.mpr hda
    have hd2 : (b.den : ℝ) ≠ 0 := Int.cast_ne_zero.mpr hdb
    push_cast
    field_simp
    ring

lemma neg_agree {a c : Rational} (hda : a.den ≠ 0)
    (h : a.times (mkR (-1) 1 0 0) = .ok c) :
    c.approx = -a.approx ∧ c.den ≠ 0 := by
  have hm : mkR (-1) 1 0 0 = (⟨-1, 1, 0, 0⟩ : Rational) := by decide
  rw [hm] at h
  have hres := times_agree (b := ⟨-1, 1, 0, 0⟩) hda (by norm_num) h
  refine ⟨?_, hres.2⟩
  rw [hres.1, approx_mk (-1) 1 0 0, symS_zero]
  norm_num

lemma divide_agree {a b c : Rational} (hda : a.den ≠ 0) (hdb : b.den ≠ 0)
    (h : a.divide b = .ok c) (hc : c.den ≠ 0) :
    c.approx = a.approx / b.approx ∧ b.num ≠ 0 := by
  rw [Rational.divide] at h
  split at h
  · cases h
  · cases h
    have hbn : b.num ≠ 0 := by
      intro h0
      apply hc
      apply simplify_den_zero
      apply simplify_den_zero
      simp [h0]
    refine ⟨?_, hbn⟩
    rw [mkRs_approx, approx_mk, approx_def2, approx_def2, symS_sub]
    have hd1 : (a.den : ℝ) ≠ 0 := Int.cast_ne_zero.mpr hda
    have hd2 : (b.den : ℝ) ≠ 0 := Int.cast_ne_zero.mpr hdb
    have hn2 : (b.num : ℝ) ≠ 0 := Int.cast_ne_zero.mpr hbn
    have hs1 : symS a.piF a.eF ≠ 0 := symS_ne_zero _ _
    have hs2 : symS b.piF b.eF ≠ 0 := symS_ne_zero _ _
    push_cast
    field_simp
    ring

/-- The constructor on two integer-valued rational numbers. -/
lemma jsConstructor_intQ {q q' : ℚ} (hq : q.den = 1) (hq' : q'.den = 1) (p e : ℤ) :
    jsConstructor (.num q) (.num q') p e = .ok (mkR q.num q'.num p e) := by
  have p1 : parseInput (.num q) = .ok ⟨q.num, 0, 0⟩ := by
    rw [parseInput, if_pos hq]
  have p2 : parseInput (.num q') = .ok ⟨q'.num, 0, 0⟩ := by
    rw [parseInput, if_pos hq']
  simp only [jsConstructor, splitStep, floatStep]
  rw [if_pos hq, p1, exDo_ok, p2, exDo_ok]
  simp [mkR]

lemma power_agree {a b c : Rational} (hda : a.den ≠ 0)
    (hbden : b.den = 1) (hbp : b.piF = 0) (hbe : b.eF = 0)
    (hnz : ¬(a.num = 0 ∧ b.num < 0))
    (hn1 : ((a.num : ℚ) ^ b.num).den = 1) (hd1 : ((a.den : ℚ) ^ b.num).den = 1)
    (h : a.power b = .ok c) :
    c.approx = jsPow a.approx b.approx ∧ c.den ≠ 0 := by
  rw [Rational.power, if_neg (by simp [hbden, hbp, hbe])] at h
  have e1 : jsPowQ a.num b.num = .ok ((a.num : ℚ) ^ b.num) := by
    rw [jsPowQ, if_neg hnz]
  have hdz : ¬(a.den = 0 ∧ b.num < 0) := fun hh => hda hh.1
  have e2 : jsPowQ a.den b.num = .ok ((a.den : ℚ) ^ b.num) := by
    rw [jsPowQ, if_neg hdz]
  rw [e1, exDo_ok, e2, exDo_ok, jsConstructor_intQ hn1 hd1, exDo_ok] at h
  cases h
  have hdq : ((a.den : ℚ) ^ b.num) ≠ 0 :=
    zpow_ne_zero _ (Int.cast_ne_zero.mpr hda)
  have hdn : ((a.den : ℚ) ^ b.num).num ≠ 0 := Rat.num_ne_zero.mpr hdq
  constructor
  · rw [mkRs_approx, approx_mk]
    have hcn : ((((a.num : ℚ) ^ b.num).num : ℤ) : ℝ) = (a.num : ℝ) ^ b.num := by
      have hh : ((((a.num : ℚ) ^ b.num).num : ℤ) : ℚ) = (a.num : ℚ) ^ b.num :=
        Rat.coe_int_num_of_den_eq_one hn1
      have := congrArg (fun q : ℚ => (q : ℝ)) hh
      push_cast at this
      exact this
    have hcd : ((((a.den : ℚ) ^ b.num).num : ℤ) : ℝ) = (a.den : ℝ) ^ b.num := by
      have hh : ((((a.den : ℚ) ^ b.num).num : ℤ) : ℚ) = (a.den : ℚ) ^ b.num :=
        Rat.coe_int_num_of_den_eq_one hd1
      have := congrArg (fun q : ℚ => (q : ℝ)) hh
      push_cast at this
      exact this
    have hb : b.approx = (b.num : ℝ) := by
      rw [approx_def2, hbp, hbe, hbden, symS_zero]
      norm_num
    rw [hcn, hcd, hb, jsPow, Real.rpow_intCast, approx_def2 a, symS_mul_right]
    rw [div_zpow, mul_zpow]
  · exact mkRs_den_nz _ _ _ hdn

/-- The least mantissa length found by `mantissaLen` really makes the value
integral, provided 9 digits do. -/
lemma mantissaLen_spec {q : ℚ} (h : (q * 10 ^ 9).den = 1) :
    (q * 10 ^ mantissaLen q).den = 1 := by
  rw [mantissaLen]
  cases hf : (List.range 10).find? (fun k => (q * 10 ^ k).den == 1) with
  | some k =>
    have := List.find?_some hf
    simpa using this
  | none =>
    simpa using h

lemma den_pow_ten (k : ℕ) : ((10 : ℚ) ^ k).den = 1 ∧ ((10 : ℚ) ^ k).num = 10 ^ k := by
  have : ((10 : ℚ) ^ k) = (((10 ^ k : ℤ)) : ℚ) := by push_cast; ring
  rw [this, Rat.den_intCast, Rat.num_intCast]
  exact ⟨rfl, rfl⟩

/-- The `<cn>` exact path: when the literal is an integer, or the 9-digit
rounding preserves it and its magnitude is at least `1e-6` (below that JS
exponential `toString` makes the constructor throw), the constructor
completes with exactly the literal's value. -/
lemma cn_agree {q : ℚ}
    (hq : q.den = 1 ∨
      (((jsRound (q * 10 ^ 9) : ℚ) / 10 ^ 9) = q ∧ 1 / 10 ^ 6 ≤ |q|)) :
    ∃ r : Rational, jsConstructor (.num q) (.num 1) 0 0 = .ok r ∧
      r.approx = (q : ℝ) ∧ r.den ≠ 0 := by
  by_cases hden : q.den = 1
  · refine ⟨mkR q.num 1 0 0, ?_, ?_, ?_⟩
    · have h1 : ((1 : ℚ)).den = 1 := rfl
      have := jsConstructor_intQ hden h1 0 0
      simpa using this
    · rw [mkR, Rational.approx_simplify, approx_mk, symS_zero]
      rw [mul_one]
      norm_num
      exact_mod_cast congrArg (fun t : ℚ => (t : ℝ)) (Rat.coe_int_num_of_den_eq_one hden)
    · exact (Rational.simplify_inv (n := q.num) 0 0 one_ne_zero).1.ne'
  · rcases hq with hq | hq
    · exact absurd hq hden
    · -- the float path, at or above 1e-6, with a value the rounding preserves
      obtain ⟨hq, habs⟩ := hq
      have hint9 : (q * 10 ^ 9).den = 1 := by
        have hz : q * 10 ^ 9 = ((jsRound (q * 10 ^ 9) : ℤ) : ℚ) := by
          conv_lhs => rw [← hq]
          rw [div_mul_cancel₀ _ (by norm_num : ((10 : ℚ) ^ 9) ≠ 0)]
        rw [hz, Rat.den_intCast]
      have hintk : (q * 10 ^ mantissaLen q).den = 1 := mantissaLen_spec hint9
      have hfloat : floatStep (.num q) (.num 1) =
          (.num (q * 10 ^ mantissaLen q), .num ((10 : ℚ) ^ mantissaLen q)) := by
        simp only [floatStep]
        rw [if_neg hden, hq, if_neg hden, if_neg (not_lt.mpr habs)]
      have hkden := (den_pow_ten (mantissaLen q)).1
      have hknum := (den_pow_ten (mantissaLen q)).2
      refine ⟨mkR (q * 10 ^ mantissaLen q).num (10 ^ mantissaLen q) 0 0, ?_, ?_, ?_⟩
      · simp only [jsConstructor, splitStep, hfloat]
        have p1 : parseInput (.num (q * 10 ^ mantissaLen q)) =
            .ok ⟨(q * 10 ^ mantissaLen q).num, 0, 0⟩ := by
          rw [parseInput, if_pos hintk]
        have p2 : parseInput (.num ((10 : ℚ) ^ mantissaLen q)) =
            .ok ⟨(10 : ℚ) ^ mantissaLen q |>.num, 0, 0⟩ := by
          rw [parseInput, if_pos hkden]
        rw [p1, exDo_ok, p2, exDo_ok, hknum]
        simp [mkR]
      · rw [mkR, Rational.approx_simplify, approx_mk, symS_zero, mul_one]
        have hcast : (((q * 10 ^ mantissaLen q).num : ℤ) : ℝ) =
            (q : ℝ) * 10 ^ mantissaLen q := by
          have hh := Rat.coe_int_num_of_den_eq_one hintk
          have := congrArg (fun t : ℚ => (t : ℝ)) hh
          push_cast at this
          exact this
        rw [hcast]
        have h10 : ((10 : ℝ) ^ mantissaLen q) ≠ 0 := by positivity
        push_cast
        field_simp
      · exact (Rational.simplify_inv (n := (q * 10 ^ mantissaLen q).num) 0 0
          (by positivity : (0 : ℤ) < 10 ^ mantissaLen q).ne').1.ne'

/-! ### The evaluator agreement induction -/

lemma rvJSList_nil : rvJSList [] = [] := rfl

lemma rvJSList_cons (v : RV) (vs : List RV) :
    rvJSList (v :: vs) = rvJS v :: rvJSList vs := rfl

lemma rvJSList_length (l : List RV) : (rvJSList l).length = l.length := by
  induction l with
  | nil => rfl
  | cons v vs ih => rw [rvJSList_cons]; simp [ih]

lemma rvJSList_getElem (l : List RV) (i : ℕ) (h : i < l.length)
    (h' : i < (rvJSList l).length) : (rvJSList l)[i] = rvJS l[i] := by
  induction l generalizing i with
  | nil => cases h
  | cons v vs ih =>
    cases i with
    | zero => rfl
    | succ j =>
      simp only [rvJSList_cons, List.getElem_cons_succ]
      exact ih j (by simpa using h) (by rw [rvJSList_length]; simpa using h)

lemma parseListToRationalFin_length {l : List XNode} {vs : List RV}
    (h : parseListToRationalFin l = .ok vs) : vs.length = l.length := by
  induction l generalizing vs with
  | nil =>
    rw [parseListToRationalFin] at h
    cases h
    rfl
  | cons c rest ih =>
    rw [parseListToRationalFin] at h
    cases hv : parseNodeToRationalFin c with
    | error m => rw [hv, exDo_error] at h; cases h
    | ok v =>
      rw [hv, exDo_ok] at h
      cases hvs : parseListToRationalFin rest with
      | error m => rw [hvs, exDo_error] at h; cases h
      | ok ws =>
        rw [hvs, exDo_ok] at h
        cases h
        simp [ih hvs]

/-- Every argument slot read behind a passing arity check has a nonzero
denominator; the unreachable default does too. -/
lemma argR_denNZ {args : List RV} (hd : RVList.denNZ args = true) (i : ℕ) :
    RV.denNZ (argR args i) = true := by
  induction args generalizing i with
  | nil =>
    cases i <;> rfl
  | cons v vs ih =>
    rw [RVList.denNZ, Bool.and_eq_true] at hd
    cases i with
    | zero => exact hd.1
    | succ j => exact ih hd.2 j

lemma argF_align {fs : List (ℝ → JSV)} {args : List RV} (x : ℝ) (i : ℕ)
    (hmap : fs.map (fun f => f x) = rvJSList args) (hi : i < args.length) :
    argF fs i x = rvJS (argR args i) := by
  have hlen : fs.length = args.length := by
    have := congrArg List.length hmap
    simpa [rvJSList_length] using this
  have hif : i < fs.length := by omega
  have hif2 : i < (fs.map (fun f => f x)).length := by simpa using hif
  have hjl : i < (rvJSList args).length := by
    rw [rvJSList_length]
    exact hi
  rw [argF, List.getD_eq_getElem _ _ hif, argR, List.getD_eq_getElem _ _ hi]
  calc fs[i] x = (fs.map (fun f => f x))[i] := by simp
    _ = (rvJSList args)[i] := List.getElem_of_eq hmap hif2
    _ = rvJS args[i] := rvJSList_getElem args i hi hjl

/-- The agreement property at a node: a success of the restricted exact
evaluator is a success of the exact evaluator, every scalar in the value is
finite, and the compiled function returns `approx` of the value at every
point. -/
def AgreeP (t : XNode) : Prop :=
  ∀ rv, parseNodeToRationalFin t = .ok rv →
    parseNodeToRational t = .ok rv ∧ RV.denNZ rv = true ∧
      ∃ f, parseNodeToFunction t = .ok f ∧ ∀ x : ℝ, f x = rvJS rv

def AgreeL (l : List XNode) : Prop :=
  ∀ rvs, parseListToRationalFin l = .ok rvs →
    parseListToRational l = .ok rvs ∧ RVList.denNZ rvs = true ∧
      ∃ fs, parseListToFunction l = .ok fs ∧
        ∀ x : ℝ, fs.map (fun f => f x) = rvJSList rvs

lemma rvJS_scalar (r : Rational) : rvJS (.scalar r) = .num r.approx := rfl

lemma rvJS_tuple (l : List RV) : rvJS (.tuple l) = .arr (rvJSList l) := rfl

lemma RV_denNZ_scalar (r : Rational) : RV.denNZ (.scalar r) = (r.den != 0) := rfl

lemma denNZ_scalar {r : Rational} (h : RV.denNZ (.scalar r) = true) : r.den ≠ 0 := by
  rw [RV_denNZ_scalar] at h
  simpa using h

/-- A successful binary operation forces both operands to be scalars. -/
lemma rvBin_ok {g : Rational → Rational → Except String Rational} {mname : String}
    {A B rv : RV} (h : rvBin g mname A B = .ok rv) :
    ∃ a b c, A = .scalar a ∧ B = .scalar b ∧ g a b = .ok c ∧ rv = .scalar c := by
  cases A with
  | tuple t => simp [rvBin] at h
  | scalar a =>
    cases B with
    | tuple t => simp [rvBin] at h
    | scalar b =>
      simp only [rvBin] at h
      cases hop : g a b with
      | error m => rw [hop, exDo_error] at h; cases h
      | ok c =>
        rw [hop, exDo_ok] at h
        cases h
        exact ⟨a, b, c, rfl, rfl, hop, rfl⟩

lemma rvNeg_ok {A rv : RV} (h : rvNeg A = .ok rv) :
    ∃ a c, A = .scalar a ∧ a.times (mkR (-1) 1 0 0) = .ok c ∧ rv = .scalar c := by
  cases A with
  | tuple t => simp [rvNeg] at h
  | scalar a =>
    simp only [rvNeg] at h
    cases hop : a.times (mkR (-1) 1 0 0) with
    | error m => rw [hop, exDo_error] at h; cases h
    | ok c =>
      rw [hop, exDo_ok] at h
      cases h
      exact ⟨a, c, rfl, hop, rfl⟩

/-- The compiled combiner applied to aligned argument closures agrees with
a binary exact result pointwise. -/
lemma bin_case_exec {args : List RV} {fs : List (ℝ → JSV)} {a b c : Rational}
    {jg : JSV → JSV → JSV} {rg : ℝ → ℝ → ℝ}
    (hmap : ∀ x : ℝ, fs.map (fun f => f x) = rvJSList args)
    (hlen2 : args.length = 2)
    (hA0 : argR args 0 = .scalar a) (hA1 : argR args 1 = .scalar b)
    (hjg : ∀ u v : ℝ, jg (.num u) (.num v) = .num (rg u v))
    (happ : c.approx = rg a.approx b.approx) :
    ∀ x : ℝ, jg (argF fs 0 x) (argF fs 1 x) = rvJS (RV.scalar c) := by
  intro x
  rw [argF_align x 0 (hmap x) (by omega), argF_align x 1 (hmap x) (by omega),
    hA0, hA1, rvJS_scalar, rvJS_scalar, rvJS_scalar, hjg, happ]

/-- Agreement at the `<apply>` combine level: a success of the restricted
combiner is a success of the exact combiner, and the compiled combiner
returns its `approx` pointwise whenever the argument closures align. -/
lemma combine_agree {action : String} {count : ℕ} {args : List RV} {rv : RV}
    (hcomb : applyCombineRFin action count args = .ok rv)
    (hdargs : RVList.denNZ args = true)
    (hdnz : RV.denNZ rv = true)
    (hlen : args.length + 1 = count) :
    applyCombineR action count args = .ok rv ∧
    ∀ fs : List (ℝ → JSV), (∀ x : ℝ, fs.map (fun f => f x) = rvJSList args) →
      ∃ g, applyCombineF action count fs = .ok g ∧ ∀ x : ℝ, g x = rvJS rv := by
  by_cases hpow : action = "power"
  · -- power: the restricted combiner adds integrality checks
    subst hpow
    rw [applyCombineRFin, if_pos rfl] at hcomb
    split at hcomb
    · rename_i hc3
      cases hA0 : argR args 0 with
      | tuple t => rw [hA0, rvPowerFin] at hcomb; simp [rvBin] at hcomb
      | scalar a =>
        cases hA1 : argR args 1 with
        | tuple t => rw [hA0, hA1, rvPowerFin] at hcomb; simp [rvBin] at hcomb
        | scalar b =>
          rw [hA0, hA1, rvPowerFin] at hcomb
          split at hcomb
          · rename_i hchk
            obtain ⟨hbden, hbp, hbe, hnz, hn1, hd1⟩ := hchk
            obtain ⟨a', b', c, ha', hb', hop, hrv⟩ := rvBin_ok hcomb
            cases ha'
            cases hb'
            subst hrv
            have hda : a.den ≠ 0 := by
              have := argR_denNZ hdargs 0
              rw [hA0] at this
              exact denNZ_scalar this
            have hpa := power_agree hda hbden hbp hbe hnz hn1 hd1 hop
            have hlen2 : args.length = 2 := by omega
            constructor
            · rw [applyCombineR, if_neg (by decide), if_neg (by decide),
                if_neg (by decide), if_neg (by decide), if_pos rfl, if_pos hc3,
                hA0, hA1]
              simp only [rvBin]
              rw [hop, exDo_ok]
            · intro fs hmap
              refine ⟨fun x => jsvPow (argF fs 0 x) (argF fs 1 x), ?_, ?_⟩
              · rw [applyCombineF, if_neg (by decide), if_neg (by decide),
                  if_neg (by decide), if_neg (by decide), if_pos rfl, if_pos hc3]
              · exact bin_case_exec hmap hlen2 hA0 hA1 (fun _ _ => rfl) hpa.1
          · cases hcomb
    · cases hcomb
  · rw [applyCombineRFin, if_neg hpow] at hcomb
    refine ⟨hcomb, ?_⟩
    intro fs hmap
    rw [applyCombineR] at hcomb
    by_cases h1 : action = "plus"
    · rw [if_pos h1] at hcomb
      by_cases h2 : count = 3
      · rw [if_pos h2] at hcomb
        obtain ⟨a, b, c, hA0, hA1, hop, hrv⟩ := rvBin_ok hcomb
        subst hrv
        have hda := denNZ_scalar (hA0 ▸ argR_denNZ hdargs 0)
        have hdb := denNZ_scalar (hA1 ▸ argR_denNZ hdargs 1)
        have hpa := plus_agree hda hdb hop
        subst h1
        refine ⟨fun x => jsvAdd (argF fs 0 x) (argF fs 1 x),
          by rw [applyCombineF, if_pos rfl, if_pos h2], ?_⟩
        exact bin_case_exec hmap (by omega) hA0 hA1 (fun _ _ => rfl) hpa.1
      · rw [if_neg h2] at hcomb
        cases hcomb
    · rw [if_neg h1] at hcomb
      by_cases h2 : action = "minus"
      · rw [if_pos h2] at hcomb
        by_cases h3 : count = 3
        · rw [if_pos h3] at hcomb
          obtain ⟨a, b, c, hA0, hA1, hop, hrv⟩ := rvBin_ok hcomb
          subst hrv
          have hda := denNZ_scalar (hA0 ▸ argR_denNZ hdargs 0)
          have hdb := denNZ_scalar (hA1 ▸ argR_denNZ hdargs 1)
          have hpa := minus_agree hda hdb hop
          subst h2
          refine ⟨fun x => jsvSub (argF fs 0 x) (argF fs 1 x),
            by rw [applyCombineF, if_neg h1, if_pos rfl, if_pos h3], ?_⟩
          exact bin_case_exec hmap (by omega) hA0 hA1 (fun _ _ => rfl) hpa.1
        · rw [if_neg h3] at hcomb
          by_cases h4 : count = 2
          · rw [if_pos h4] at hcomb
            obtain ⟨a, c, hA0, hop, hrv⟩ := rvNeg_ok hcomb
            subst hrv
            have hda := denNZ_scalar (hA0 ▸ argR_denNZ hdargs 0)
            have hpa := neg_agree hda hop
            subst h2
            refine ⟨fun x => jsvNeg (argF fs 0 x),
              by rw [applyCombineF, if_neg h1, if_pos rfl, if_neg h3,
                if_pos h4], ?_⟩
            intro x
            show jsvNeg (argF fs 0 x) = rvJS (RV.scalar c)
            rw [argF_align x 0 (hmap x) (by omega), hA0, rvJS_scalar, rvJS_scalar]
            show JSV.num (-a.approx) = JSV.num c.approx
            rw [hpa.1]
          · rw [if_neg h4] at hcomb
            cases hcomb
      · rw [if_neg h2] at hcomb
        by_cases h3 : action = "times"
        · rw [if_pos h3] at hcomb
          by_cases h4 : count = 3
          · rw [if_pos h4] at hcomb
            obtain ⟨a, b, c, hA0, hA1, hop, hrv⟩ := rvBin_ok hcomb
            subst hrv
            have hda := denNZ_scalar (hA0 ▸ argR_denNZ hdargs 0)
            have hdb := denNZ_scalar (hA1 ▸ argR_denNZ hdargs 1)
            have hpa := times_agree hda hdb hop
            subst h3
            refine ⟨fun x => jsvMul (argF fs 0 x) (argF fs 1 x),
              by rw [applyCombineF, if_neg h1, if_neg h2, if_pos rfl,
                if_pos h4], ?_⟩
            exact bin_case_exec hmap (by omega) hA0 hA1 (fun _ _ => rfl) hpa.1
          · rw [if_neg h4] at hcomb
            cases hcomb
        · rw [if_neg h3] at hcomb
          by_cases h4 : action = "divide"
          · rw [if_pos h4] at hcomb
            by_cases h5 : count = 3
            · rw [if_pos h5] at hcomb
              obtain ⟨a, b, c, hA0, hA1, hop, hrv⟩ := rvBin_ok hcomb
              subst hrv
              have hda := denNZ_scalar (hA0 ▸ argR_denNZ hdargs 0)
              have hdb := denNZ_scalar (hA1 ▸ argR_denNZ hdargs 1)
              have hdc := denNZ_scalar hdnz
              have hpa := divide_agree hda hdb hop hdc
              subst h4
              refine ⟨fun x => jsvDiv (argF fs 0 x) (argF fs 1 x),
                by rw [applyCombineF, if_neg h1, if_neg h2, if_neg h3,
                  if_pos rfl, if_pos h5], ?_⟩
              exact bin_case_exec hmap (by omega) hA0 hA1 (fun _ _ => rfl) hpa.1
            · rw [if_neg h5] at hcomb
              cases hcomb
          · rw [if_neg h4, if_neg hpow] at hcomb
            cases hcomb

lemma agreeL {l : List XNode} (ih : ∀ c ∈ l, AgreeP c) : AgreeL l := by
  induction l with
  | nil =>
    intro rvs h
    rw [parseListToRationalFin] at h
    cases h
    exact ⟨rfl, rfl, [], rfl, fun _ => rfl⟩
  | cons c rest ihrest =>
    intro rvs h
    rw [parseListToRationalFin] at h
    cases hv : parseNodeToRationalFin c with
    | error m => rw [hv, exDo_error] at h; cases h
    | ok v =>
      rw [hv, exDo_ok] at h
      cases hvs : parseListToRationalFin rest with
      | error m => rw [hvs, exDo_error] at h; cases h
      | ok ws =>
        rw [hvs, exDo_ok] at h
        cases h
        obtain ⟨hr1, hd1, f, hf1, hfx⟩ := ih c (List.mem_cons_self _ _) v hv
        obtain ⟨hr2, hd2, fs, hf2, hfsx⟩ :=
          ihrest (fun c' hc' => ih c' (List.mem_cons_of_mem _ hc')) ws hvs
        refine ⟨?_, ?_, f :: fs, ?_, ?_⟩
        · rw [parseListToRational, hr1, exDo_ok, hr2, exDo_ok]
        · rw [RVList.denNZ, hd1, hd2]
          rfl
        · rw [parseListToFunction, hf1, exDo_ok, hf2, exDo_ok]
        · intro x
          rw [List.map_cons, hfx x, hfsx x, rvJSList]

lemma RV_denNZ_tuple (l : List RV) : RV.denNZ (.tuple l) = RVList.denNZ l := rfl

lemma approx_pi : Rational.approx ⟨1, 1, 1, 0⟩ = Real.pi := by
  rw [approx_mk, symS]
  norm_num

lemma approx_e : Rational.approx ⟨1, 1, 0, 1⟩ = Real.exp 1 := by
  rw [approx_mk, symS]
  norm_num

lemma parseNodeToRationalFin_node (tag txt : String) (cs : List XNode) :
    parseNodeToRationalFin (.node tag txt cs) =
      (if tag = "apply" then
        if cs.length < 2 then .error "<apply> must have at least two children."
        else
          match cs with
          | [] => .error "<apply> must have at least two children."
          | op :: argNodes => do
            let args ← parseListToRationalFin argNodes
            let rv ← applyCombineRFin op.tag cs.length args
            if rv.denNZ then .ok rv else .error "zero denominator"
      else if tag = "cn" then
        match parseCn txt with
        | some q =>
          if q.den = 1 ∨
            (((jsRound (q * 10 ^ 9) : ℚ) / 10 ^ 9) = q ∧ 1 / 10 ^ 6 ≤ |q|) then do
            let r ← jsConstructor (.num q) (.num 1) 0 0
            .ok (.scalar r)
          else .error "literal altered by 9-digit rounding"
        | none => .error "<cn> must contain a number."
      else if tag = "pi" then do
        let r ← jsConstructor (.num 1) (.num 1) 1 0
        .ok (.scalar r)
      else if tag = "exponentiale" then do
        let r ← jsConstructor (.num 1) (.num 1) 0 1
        .ok (.scalar r)
      else if tag = "list" then do
        let els ← parseListToRationalFin cs
        .ok (.tuple els)
      else .error ("Unknown MathML element: " ++ tag)) := by
  rw [parseNodeToRationalFin.eq_def]

lemma parseNodeToRational_node (tag txt : String) (cs : List XNode) :
    parseNodeToRational (.node tag txt cs) =
      (if tag = "apply" then
        if cs.length < 2 then .error "<apply> must have at least two children."
        else
          match cs with
          | [] => .error "<apply> must have at least two children."
          | op :: argNodes => do
            let args ← parseListToRational argNodes
            applyCombineR op.tag cs.length args
      else if tag = "cn" then
        match parseCn txt with
        | some q => do
          let r ← jsConstructor (.num q) (.num 1) 0 0
          .ok (.scalar r)
        | none => .error "<cn> must contain a number."
      else if tag = "pi" then do
        let r ← jsConstructor (.num 1) (.num 1) 1 0
        .ok (.scalar r)
      else if tag = "exponentiale" then do
        let r ← jsConstructor (.num 1) (.num 1) 0 1
        .ok (.scalar r)
      else if tag = "list" then do
        let els ← parseListToRational cs
        .ok (.tuple els)
      else .error ("Unknown MathML element: " ++ tag)) := by
  rw [parseNodeToRational.eq_def]

lemma parseNodeToFunction_node (tag txt : String) (cs : List XNode) :
    parseNodeToFunction (.node tag txt cs) =
      (if tag = "apply" then
        if cs.length < 2 then .error "<apply> must have at least two children."
        else
          match cs with
          | [] => .error "<apply> must have at least two children."
          | op :: argNodes => do
            let args ← parseListToFunction argNodes
            applyCombineF op.tag cs.length args
      else if tag = "ci" then
        if txt = "x" then .ok (fun x => .num x)
        else .error "<ci> can only take 'x' in <math-plot>."
      else if tag = "cn" then
        match parseCn txt with
        | some q => .ok (fun _ => .num (q : ℝ))
        | none => .error "<cn> must contain a number."
      else if tag = "degree" ∨ tag = "logbase" then
        match cs with
        | c :: _ => parseNodeToFunction c
        | [] => .error "TypeError: node.firstChild is null"
      else if tag = "pi" then .ok (fun _ => .num Real.pi)
      else if tag = "exponentiale" then .ok (fun _ => .num (Real.exp 1))
      else if tag = "list" then do
        let fs ← parseListToFunction cs
        .ok (fun x => .arr (fs.map (fun f => f x)))
      else .error ("Unknown MathML element: " ++ tag)) := by
  rw [parseNodeToFunction.eq_def]

lemma agree_node (tag txt : String) (cs : List XNode)
    (ihc : ∀ c ∈ cs, AgreeP c) : AgreeP (.node tag txt cs) := by
  intro rv h
  rw [parseNodeToRationalFin_node] at h
  by_cases h1 : tag = "apply"
  · subst h1
    rw [if_pos rfl] at h
    split at h
    · cases h
    · rename_i hlen2
      split at h
      · cases h
      · rename_i op argNodes
        cases hargs : parseListToRationalFin argNodes with
        | error m => rw [hargs, exDo_error] at h; cases h
        | ok args =>
          rw [hargs, exDo_ok] at h
          cases hcomb : applyCombineRFin op.tag (op :: argNodes).length args with
          | error m => rw [hcomb, exDo_error] at h; cases h
          | ok rv' =>
            rw [hcomb, exDo_ok] at h
            split at h
            · rename_i hdnz
              cases h
              obtain ⟨hrL, hdL, fs, hfL, hfsx⟩ :=
                agreeL (fun c hc => ihc c (List.mem_cons_of_mem _ hc)) args hargs
              have hlen : args.length + 1 = (op :: argNodes).length := by
                rw [parseListToRationalFin_length hargs]
                simp
              obtain ⟨hR, hexec⟩ := combine_agree hcomb hdL hdnz hlen
              obtain ⟨g, hgok, hgx⟩ := hexec fs hfsx
              refine ⟨?_, hdnz, g, ?_, hgx⟩
              · rw [parseNodeToRational_node, if_pos rfl, if_neg hlen2]
                show (do
                  let args ← parseListToRational argNodes
                  applyCombineR op.tag (op :: argNodes).length args) = .ok rv
                rw [hrL, exDo_ok, hR]
              · rw [parseNodeToFunction_node, if_pos rfl, if_neg hlen2]
                show (do
                  let fargs ← parseListToFunction argNodes
                  applyCombineF op.tag (op :: argNodes).length fargs) = .ok g
                rw [hfL, exDo_ok, hgok]
            · cases h
  · rw [if_neg h1] at h
    by_cases h2 : tag = "cn"
    · subst h2
      rw [if_pos rfl] at h
      split at h
      · rename_i q hcn
        split at h
        · rename_i hq
          obtain ⟨r, hok, happrox, hden⟩ := cn_agree hq
          rw [hok, exDo_ok] at h
          cases h
          refine ⟨?_, ?_, fun _ => .num (q : ℝ), ?_, ?_⟩
          · rw [parseNodeToRational_node, if_neg h1, if_pos rfl, hcn]
            show (do
              let r ← jsConstructor (.num q) (.num 1) 0 0
              Except.ok (RV.scalar r)) = .ok (.scalar r)
            rw [hok, exDo_ok]
          · rw [RV_denNZ_scalar]
            simpa using hden
          · rw [parseNodeToFunction_node, if_neg (by decide), if_neg (by decide),
              if_pos rfl, hcn]
          · intro x
            rw [rvJS_scalar, happrox]
        · cases h
      · cases h
    · rw [if_neg h2] at h
      by_cases h3 : tag = "pi"
      · subst h3
        rw [if_pos rfl] at h
        have hc : jsConstructor (.num 1) (.num 1) 1 0 = .ok (mkR 1 1 1 0) :=
          jsConstructor_intQ rfl rfl 1 0
        have hmk : mkR 1 1 1 0 = (⟨1, 1, 1, 0⟩ : Rational) := by decide
        rw [hc, hmk, exDo_ok] at h
        cases h
        refine ⟨?_, by decide, fun _ => .num Real.pi, ?_, ?_⟩
        · rw [parseNodeToRational_node, if_neg h1, if_neg h2, if_pos rfl, hc, hmk,
            exDo_ok]
        · rw [parseNodeToFunction_node, if_neg (by decide), if_neg (by decide),
            if_neg (by decide), if_neg (by decide), if_pos rfl]
        · intro x
          rw [rvJS_scalar, approx_pi]
      · rw [if_neg h3] at h
        by_cases h4 : tag = "exponentiale"
        · subst h4
          rw [if_pos rfl] at h
          have hc : jsConstructor (.num 1) (.num 1) 0 1 = .ok (mkR 1 1 0 1) :=
            jsConstructor_intQ rfl rfl 0 1
          have hmk : mkR 1 1 0 1 = (⟨1, 1, 0, 1⟩ : Rational) := by decide
          rw [hc, hmk, exDo_ok] at h
          cases h
          refine ⟨?_, by decide, fun _ => .num (Real.exp 1), ?_, ?_⟩
          · rw [parseNodeToRational_node, if_neg h1, if_neg h2, if_neg h3,
              if_pos rfl, hc, hmk, exDo_ok]
          · rw [parseNodeToFunction_node, if_neg (by decide), if_neg (by decide),
              if_neg (by decide), if_neg (by decide), if_neg (by decide),
              if_pos rfl]
          · intro x
            rw [rvJS_scalar, approx_e]
        · rw [if_neg h4] at h
          by_cases h5 : tag = "list"
          · subst h5
            rw [if_pos rfl] at h
            cases hels : parseListToRationalFin cs with
            | error m => rw [hels, exDo_error] at h; cases h
            | ok els =>
              rw [hels, exDo_ok] at h
              cases h
              obtain ⟨hrL, hdL, fs, hfL, hfsx⟩ := agreeL ihc els hels
              refine ⟨?_, ?_, fun x => .arr (fs.map (fun f => f x)), ?_, ?_⟩
              · rw [parseNodeToRational_node, if_neg h1, if_neg h2, if_neg h3,
                  if_neg h4, if_pos rfl, hrL, exDo_ok]
              · rw [RV_denNZ_tuple]
                exact hdL
              · rw [parseNodeToFunction_node, if_neg (by decide), if_neg (by decide),
                  if_neg (by decide), if_neg (by decide), if_neg (by decide),
                  if_neg (by decide), if_pos rfl, hfL, exDo_ok]
              · intro x
                show JSV.arr (fs.map (fun f => f x)) = rvJS (RV.tuple els)
                rw [rvJS_tuple, hfsx x]
          · rw [if_neg h5] at h
            cases h

lemma sizeOf_child {c : XNode} {tag txt : String} {cs : List XNode} (h : c ∈ cs) :
    sizeOf c < sizeOf (XNode.node tag txt cs) := by
  have h1 := List.sizeOf_lt_of_mem h
  have h2 := XNode.node.sizeOf_spec tag txt cs
  omega

lemma agreeP_all (t : XNode) : AgreeP t := by
  have H : ∀ (n : ℕ) (t : XNode), sizeOf t ≤ n → AgreeP t := by
    intro n
    induction n with
    | zero =>
      intro t ht
      exfalso
      cases t with
      | node tag txt cs =>
        have h2 := XNode.node.sizeOf_spec tag txt cs
        omega
    | succ n ihn =>
      intro t ht
      cases t with
      | node tag txt cs =>
        refine agree_node tag txt cs (fun c hc => ihn c ?_)
        have := @sizeOf_child c tag txt cs hc
        omega
  exact H (sizeOf t) t le_rfl



/-- **C1** (counterexample).  The two evaluators of a variable-free tree
using only the exactly-supported operator subset do *not* always agree:
for the single-leaf tree `<cn>0.0000000001</cn>` the exact (`rational`)
evaluation completes with the value 0 (the constructor rounds the mantissa
to 9 decimal digits), while the compiled (`exec`) function returns the
nonzero value 10⁻¹⁰ at every point. -/
theorem exec_disagrees_exact_cn :
    parseNodeToRational (.node "cn" "0.0000000001" []) =
      .ok (.scalar ⟨0, 1, 0, 0⟩) ∧
    Rational.approx ⟨0, 1, 0, 0⟩ = 0 ∧
    ∃ f, parseNodeToFunction (.node "cn" "0.0000000001" []) = .ok f ∧
      f 0 = .num ((1 : ℝ) / 10 ^ 10) ∧ (1 : ℝ) / 10 ^ 10 ≠ 0 := by
  refine ⟨by with_unfolding_all rfl, ?_, fun _ => .num ((mkRat 1 (10 ^ 10) : ℚ) : ℝ),
    by with_unfolding_all rfl, ?_, ?_⟩
  · rw [approx_mk]
    norm_num
  · have hq : ((mkRat 1 (10 ^ 10) : ℚ) : ℝ) = (1 : ℝ) / 10 ^ 10 := by
      rw [Rat.mkRat_eq_div]
      push_cast
      norm_num
    show JSV.num ((mkRat 1 (10 ^ 10) : ℚ) : ℝ) = JSV.num ((1 : ℝ) / 10 ^ 10)
    rw [hq]
  · norm_num

/-- **C1** (amended agreement).  On the checked fragment — no `<cn>` literal
altered by the constructor's 9-digit rounding, `power` only with integral
integer powers, and no operation completing with a zero denominator — the
two evaluators agree exactly: a success of the restricted exact evaluator
is a success of the exact evaluator with the same value, and the compiled
function returns that value's `approx` at every point. -/
theorem exec_agrees_exact (t : XNode) (rv : RV)
    (h : parseNodeToRationalFin t = .ok rv) :
    parseNodeToRational t = .ok rv ∧ RV.denNZ rv = true ∧
      ∃ f, parseNodeToFunction t = .ok f ∧ ∀ x : ℝ, f x = rvJS rv :=
  agreeP_all t rv h

theorem exec_agrees_exact_witness :
    parseNodeToRationalFin
        (.node "apply" ""
          [.node "times" "" [], .node "cn" "2" [], .node "pi" "" []]) =
      .ok (.scalar ⟨2, 1, 1, 0⟩) ∧
    (parseNodeToRational
        (.node "apply" ""
          [.node "times" "" [], .node "cn" "2" [], .node "pi" "" []]) =
      .ok (.scalar ⟨2, 1, 1, 0⟩) ∧
    RV.denNZ (.scalar ⟨2, 1, 1, 0⟩) = true ∧
      ∃ f, parseNodeToFunction
          (.node "apply" ""
            [.node "times" "" [], .node "cn" "2" [], .node "pi" "" []]) =
        .ok f ∧ ∀ x : ℝ, f x = rvJS (.scalar ⟨2, 1, 1, 0⟩)) :=
  ⟨rfl, exec_agrees_exact _ _ rfl⟩

/-- **C6** (counterexample).  Exact (`rational`) evaluation of
`<apply><root/><degree><cn>3</cn></degree><cn>64</cn></apply>` does not
yield the value 4: `_parseNodeToRational` has no `degree` case (it is
commented out in the source), so evaluating the first argument throws
`Unknown MathML element: degree`. -/
theorem root_tree_exact_error :
    parseNodeToRational
        (.node "apply" ""
          [.node "root" "" [], .node "degree" "" [.node "cn" "3" []],
            .node "cn" "64" []]) =
      .error "Unknown MathML element: degree" := by
  with_unfolding_all rfl

/-- **C6** (amended).  For the tree
`<apply><root/><degree><cn>3</cn></degree><cn>64</cn></apply>`, exact
evaluation fails with `Unknown MathML element: degree`, while the compiled
numeric function succeeds and returns 64^(1/3) = 4 at every point. -/
theorem root_tree_exec_four :
    parseNodeToRational
        (.node "apply" ""
          [.node "root" "" [], .node "degree" "" [.node "cn" "3" []],
            .node "cn" "64" []]) =
      .error "Unknown MathML element: degree" ∧
    ∃ f, parseNodeToFunction
        (.node "apply" ""
          [.node "root" "" [], .node "degree" "" [.node "cn" "3" []],
            .node "cn" "64" []]) = .ok f ∧
      ∀ x : ℝ, f x = .num 4 := by
  constructor
  · with_unfolding_all rfl
  · refine ⟨fun x => jsvPow
      (argF [fun _ => .num ((3 : ℚ) : ℝ), fun _ => .num ((64 : ℚ) : ℝ)] 1 x)
      (jsvDiv (.num 1)
        (argF [fun _ => .num ((3 : ℚ) : ℝ), fun _ => .num ((64 : ℚ) : ℝ)] 0 x)),
      by with_unfolding_all rfl, ?_⟩
    intro x
    show JSV.num (jsPow ((64 : ℚ) : ℝ) (1 / ((3 : ℚ) : ℝ))) = JSV.num 4
    have h3 : ((3 : ℚ) : ℝ) = 3 := by norm_num
    have h64 : ((64 : ℚ) : ℝ) = 64 := by norm_num
    rw [h3, h64, jsPow]
    have hv : (64 : ℝ) ^ ((1 : ℝ) / 3) = 4 := by
      have h4 : (64 : ℝ) = (4 : ℝ) ^ ((3 : ℝ)) := by
        rw [show ((3 : ℝ)) = ((3 : ℕ) : ℝ) by norm_num, Real.rpow_natCast]
        norm_num
      rw [h4, ← Real.rpow_mul (by norm_num : (0 : ℝ) ≤ 4)]
      norm_num
    rw [hv]

lemma parseNodeToFunction_apply_cons (txt : String) (op : XNode)
    (argNodes : List XNode) (h : ¬((op :: argNodes).length < 2)) :
    parseNodeToFunction (.node "apply" txt (op :: argNodes)) =
      (do
        let args ← parseListToFunction argNodes
        applyCombineF op.tag (op :: argNodes).length args) := by
  rw [parseNodeToFunction_node, if_pos rfl, if_neg h]

lemma parseNodeToRational_apply_cons (txt : String) (op : XNode)
    (argNodes : List XNode) (h : ¬((op :: argNodes).length < 2)) :
    parseNodeToRational (.node "apply" txt (op :: argNodes)) =
      (do
        let args ← parseListToRational argNodes
        applyCombineR op.tag (op :: argNodes).length args) := by
  rw [parseNodeToRational_node, if_pos rfl, if_neg h]

/-- **C7**.  An `<apply>` whose operator is `plus` and whose argument count
differs from 2 never evaluates, in either view: both compilations fail.
Moreover the error is precisely the arity message whenever the arguments
themselves compile: the generic `<apply> must have at least two children.`
when there are no arguments, and `_assertChildren`'s
`<apply><plus/> must have 2 children.` otherwise. -/
theorem plus_wrong_arity_fails (txt : String) (op : XNode)
    (argNodes : List XNode) (hop : op.tag = "plus")
    (hcnt : argNodes.length ≠ 2) :
    (∀ f, parseNodeToFunction (.node "apply" txt (op :: argNodes)) ≠ .ok f) ∧
    (∀ rv, parseNodeToRational (.node "apply" txt (op :: argNodes)) ≠ .ok rv) ∧
    (∀ fs, parseListToFunction argNodes = .ok fs →
      parseNodeToFunction (.node "apply" txt (op :: argNodes)) =
        .error (if argNodes.length = 0
          then "<apply> must have at least two children."
          else assertChildrenMsg "plus" 3)) ∧
    (∀ args, parseListToRational argNodes = .ok args →
      parseNodeToRational (.node "apply" txt (op :: argNodes)) =
        .error (if argNodes.length = 0
          then "<apply> must have at least two children."
          else assertChildrenMsg "plus" 3)) := by
  have hcount : (op :: argNodes).length ≠ 3 := by
    simp only [List.length_cons]
    omega
  cases argNodes with
  | nil =>
    have hshort : (op :: ([] : List XNode)).length < 2 := by simp
    have hf : parseNodeToFunction (.node "apply" txt [op]) =
        .error "<apply> must have at least two children." := by
      rw [parseNodeToFunction_node, if_pos rfl, if_pos hshort]
    have hr : parseNodeToRational (.node "apply" txt [op]) =
        .error "<apply> must have at least two children." := by
      rw [parseNodeToRational_node, if_pos rfl, if_pos hshort]
    refine ⟨?_, ?_, ?_, ?_⟩
    · intro f hok
      rw [hf] at hok
      cases hok
    · intro rv hok
      rw [hr] at hok
      cases hok
    · intro fs _
      rw [hf]
      simp
    · intro args _
      rw [hr]
      simp
  | cons a rest =>
    have hlong : ¬((op :: a :: rest).length < 2) := by simp
    have hne : (a :: rest).length ≠ 0 := by simp
    have hcf : ∀ fs, applyCombineF op.tag (op :: a :: rest).length fs =
        .error (assertChildrenMsg "plus" 3) := by
      intro fs
      rw [hop, applyCombineF, if_pos rfl, if_neg hcount]
    have hcr : ∀ args, applyCombineR op.tag (op :: a :: rest).length args =
        .error (assertChildrenMsg "plus" 3) := by
      intro args
      rw [hop, applyCombineR, if_pos rfl, if_neg hcount]
    refine ⟨?_, ?_, ?_, ?_⟩
    · intro f hok
      rw [parseNodeToFunction_apply_cons txt op (a :: rest) hlong] at hok
      cases hargs : parseListToFunction (a :: rest) with
      | error m => rw [hargs, exDo_error] at hok; cases hok
      | ok fs =>
        rw [hargs, exDo_ok, hcf] at hok
        cases hok
    · intro rv hok
      rw [parseNodeToRational_apply_cons txt op (a :: rest) hlong] at hok
      cases hargs : parseListToRational (a :: rest) with
      | error m => rw [hargs, exDo_error] at hok; cases hok
      | ok args =>
        rw [hargs, exDo_ok, hcr] at hok
        cases hok
    · intro fs hargs
      rw [parseNodeToFunction_apply_cons txt op (a :: rest) hlong, hargs,
        exDo_ok, hcf, if_neg hne]
    · intro args hargs
      rw [parseNodeToRational_apply_cons txt op (a :: rest) hlong, hargs,
        exDo_ok, hcr, if_neg hne]

theorem plus_wrong_arity_fails_witness :
    ((XNode.node "plus" "" []).tag = "plus" ∧
      ([XNode.node "cn" "1" []] : List XNode).length ≠ 2) ∧
    ((∀ f, parseNodeToFunction
        (.node "apply" "" [.node "plus" "" [], .node "cn" "1" []]) ≠ .ok f) ∧
    (∀ rv, parseNodeToRational
        (.node "apply" "" [.node "plus" "" [], .node "cn" "1" []]) ≠ .ok rv) ∧
    (∀ fs, parseListToFunction [XNode.node "cn" "1" []] = .ok fs →
      parseNodeToFunction
          (.node "apply" "" [.node "plus" "" [], .node "cn" "1" []]) =
        .error (if ([XNode.node "cn" "1" []] : List XNode).length = 0
          then "<apply> must have at least two children."
          else assertChildrenMsg "plus" 3)) ∧
    (∀ args, parseListToRational [XNode.node "cn" "1" []] = .ok args →
      parseNodeToRational
          (.node "apply" "" [.node "plus" "" [], .node "cn" "1" []]) =
        .error (if ([XNode.node "cn" "1" []] : List XNode).length = 0
          then "<apply> must have at least two children."
          else assertChildrenMsg "plus" 3))) :=
  ⟨⟨rfl, by decide⟩, plus_wrong_arity_fails "" (.node "plus" "" [])
    [.node "cn" "1" []] rfl (by decide)⟩


/-! ### `MathPlot._getStepSize` (second revision, `MINSTEPSIZE = 40`) -/

/-- The base step: `new Rational("pi")` when the axis is x and `piUnits` is
set (collapsed into the single flag `piMode`), `new Rational(1)` otherwise. -/
def stepBase (piMode : Bool) : Rational :=
  if piMode then mkR 1 1 1 0 else mkR 1 1 0 0

open Classical

/-- The value of `i - 1` at exit of the multiplying `for` loop: the least
`m ≥ 2` whose step `base*m` projects to at least `MINSTEPSIZE` pixels
(0 if none exists, in which case the source loop does not terminate). -/
noncomputable def firstMultGE (u : ℝ) (b : Rational) : ℕ :=
  if h : ∃ m : ℕ, 2 ≤ m ∧ 40 ≤ u * (b.timesInt m).approx then Nat.find h
  else 0

/-- The value of `i - 1` at exit of the dividing `for` loop: the least
`k ≥ 2` whose step `base/k` projects to at most `MINSTEPSIZE` pixels
(0 if none exists). -/
noncomputable def firstDivLE (u : ℝ) (b : Rational) : ℕ :=
  if h : ∃ k : ℕ, 2 ≤ k ∧ u * (b.divideInt k).approx ≤ 40 then Nat.find h
  else 0

/-- `MathPlot._getStepSize` for a pixel-per-unit scale `u`: on exact match
return the base step; if the base projects under 40 pixels return
`base.times(i - 1)` for the exit value of `i`; otherwise return
`base.divide(i - 2)`, which is the *predecessor* of the first divisor
whose projection reached 40. -/
noncomputable def getStepSize (u : ℝ) (piMode : Bool) : Rational :=
  if u * (stepBase piMode).approx = 40 then stepBase piMode
  else if u * (stepBase piMode).approx < 40 then
    (stepBase piMode).timesInt (firstMultGE u (stepBase piMode))
  else (stepBase piMode).divideInt ((firstDivLE u (stepBase piMode) : ℤ) - 1)

lemma timesInt_approx (b : Rational) (m : ℤ) :
    (b.timesInt m).approx = m * b.approx := by
  rw [Rational.timesInt, mkRs_approx, approx_mk, approx_def2]
  push_cast
  ring

lemma divideInt_approx (b : Rational) (k : ℤ) :
    (b.divideInt k).approx = b.approx / k := by
  rw [Rational.divideInt, mkRs_approx, approx_mk, approx_def2]
  push_cast
  ring

lemma stepBase_false : stepBase false = ⟨1, 1, 0, 0⟩ := by decide

lemma stepBase_approx_pos (piMode : Bool) : 0 < (stepBase piMode).approx := by
  cases piMode
  · rw [stepBase_false, approx_mk, symS_zero]
    norm_num
  · show 0 < (mkR 1 1 1 0).approx
    rw [mkR, Rational.approx_simplify, approx_pi]
    exact Real.pi_pos

/-- **C8** (counterexample).  At scale 80 pixels per unit (pi-units off) the
returned step is the base step 1, whose projection is 80 pixels — yet the
smaller candidate step 1/2 of the allowed form `baseUnit/n` already projects
to exactly the 40-pixel threshold.  The dividing loop exits once the
projection is no longer *strictly greater* than the threshold but then
steps back by one divisor, so the returned step is not the smallest one
whose projection is ≥ the threshold. -/
theorem step_size_not_minimal :
    getStepSize 80 false = ⟨1, 1, 0, 0⟩ ∧
    (40 : ℝ) ≤ 80 * (Rational.divideInt ⟨1, 1, 0, 0⟩ 2).approx ∧
    (Rational.divideInt ⟨1, 1, 0, 0⟩ 2).approx < Rational.approx ⟨1, 1, 0, 0⟩ := by
  have hba : (stepBase false).approx = 1 := by
    rw [stepBase_false, approx_mk, symS_zero]
    norm_num
  have happ1 : Rational.approx ⟨1, 1, 0, 0⟩ = 1 := by
    rw [approx_mk, symS_zero]
    norm_num
  have hdiv : ∀ k : ℤ, (Rational.divideInt ⟨1, 1, 0, 0⟩ k).approx = 1 / k := by
    intro k
    rw [divideInt_approx, happ1]
  have hex : ∃ k : ℕ, 2 ≤ k ∧
      (80 : ℝ) * ((stepBase false).divideInt k).approx ≤ 40 := by
    refine ⟨2, le_refl 2, ?_⟩
    rw [stepBase_false, hdiv]
    norm_num
  have hfind : firstDivLE 80 (stepBase false) = 2 := by
    rw [firstDivLE, dif_pos hex]
    rw [Nat.find_eq_iff]
    refine ⟨⟨le_refl 2, ?_⟩, ?_⟩
    · rw [stepBase_false, hdiv]
      norm_num
    · intro j hj
      intro hc
      omega
  refine ⟨?_, ?_, ?_⟩
  · rw [getStepSize, if_neg (by rw [hba]; norm_num),
      if_neg (by rw [hba]; norm_num), hfind]
    rw [stepBase_false]
    show Rational.divideInt ⟨1, 1, 0, 0⟩ ((2 : ℕ) - 1 : ℤ) = ⟨1, 1, 0, 0⟩
    norm_num
    decide
  · rw [hdiv]
    norm_num
  · rw [hdiv, happ1]
    norm_num

/-- **C8** (amended).  For every positive scale `u`: on exact 40-pixel match
the base step is returned unchanged; when the base projects under the
threshold the result is `base*m` for the *least* `m ≥ 2` whose projection
reaches the threshold (as the claim says); but when the base projects over
the threshold the result is `base/(k-1)` for the least divisor `k ≥ 2`
whose projection is ≤ the threshold — one divisor *before* the first
candidate at or under 40 pixels, so every divisor `j < k` the function
skips still projects strictly above the threshold. -/
theorem step_size_branches (u : ℝ) (piMode : Bool) (hu : 0 < u) :
    (u * (stepBase piMode).approx = 40 → getStepSize u piMode = stepBase piMode) ∧
    (u * (stepBase piMode).approx < 40 →
      ∃ m : ℕ, 2 ≤ m ∧ getStepSize u piMode = (stepBase piMode).timesInt m ∧
        40 ≤ u * ((stepBase piMode).timesInt m).approx ∧
        ∀ j : ℕ, 2 ≤ j → j < m →
          u * ((stepBase piMode).timesInt j).approx < 40) ∧
    (40 < u * (stepBase piMode).approx →
      ∃ k : ℕ, 2 ≤ k ∧
        getStepSize u piMode = (stepBase piMode).divideInt ((k : ℤ) - 1) ∧
        u * ((stepBase piMode).divideInt k).approx ≤ 40 ∧
        ∀ j : ℕ, 2 ≤ j → j < k →
          40 < u * ((stepBase piMode).divideInt j).approx) := by
  have hbpos : 0 < (stepBase piMode).approx := stepBase_approx_pos piMode
  have hupos : 0 < u * (stepBase piMode).approx := mul_pos hu hbpos
  refine ⟨?_, ?_, ?_⟩
  · intro h40
    rw [getStepSize, if_pos h40]
  · intro hlt
    have hex : ∃ m : ℕ, 2 ≤ m ∧
        40 ≤ u * ((stepBase piMode).timesInt m).approx := by
      obtain ⟨n, hn⟩ := exists_nat_ge (40 / (u * (stepBase piMode).approx))
      refine ⟨max 2 n, le_max_left 2 n, ?_⟩
      rw [timesInt_approx]
      rw [div_le_iff hupos] at hn
      have h3 : (n : ℝ) ≤ ((max 2 n : ℕ) : ℝ) := by
        exact_mod_cast Nat.le_max_right 2 n
      push_cast
      push_cast at h3
      nlinarith
    refine ⟨firstMultGE u (stepBase piMode), ?_, ?_, ?_, ?_⟩
    · rw [firstMultGE, dif_pos hex]
      exact (Nat.find_spec hex).1
    · rw [getStepSize, if_neg (ne_of_lt hlt), if_pos hlt]
    · rw [firstMultGE, dif_pos hex]
      exact (Nat.find_spec hex).2
    · intro j hj2 hjlt
      rw [firstMultGE, dif_pos hex] at hjlt
      have hmin := Nat.find_min hex hjlt
      push_neg at hmin
      exact hmin hj2
  · intro hgt
    have hex : ∃ k : ℕ, 2 ≤ k ∧
        u * ((stepBase piMode).divideInt k).approx ≤ 40 := by
      obtain ⟨n, hn⟩ := exists_nat_ge (u * (stepBase piMode).approx / 40)
      have h2max : (2 : ℕ) ≤ max 2 n := le_max_left 2 n
      have hmpos : (0 : ℝ) < ((max 2 n : ℕ) : ℝ) := by
        have h0 : (0 : ℕ) < max 2 n := by omega
        exact_mod_cast h0
      refine ⟨max 2 n, h2max, ?_⟩
      rw [divideInt_approx]
      rw [div_le_iff (by norm_num : (0 : ℝ) < 40)] at hn
      have h3 : (n : ℝ) ≤ ((max 2 n : ℕ) : ℝ) := by
        exact_mod_cast Nat.le_max_right 2 n
      have h1 : u * (stepBase piMode).approx ≤ 40 * ((max 2 n : ℕ) : ℝ) := by
        nlinarith
      have hcast : (((max 2 n : ℕ) : ℤ) : ℝ) = ((max 2 n : ℕ) : ℝ) := by
        push_cast
        ring
      rw [hcast, ← mul_div_assoc, div_le_iff hmpos]
      linarith
    refine ⟨firstDivLE u (stepBase piMode), ?_, ?_, ?_, ?_⟩
    · rw [firstDivLE, dif_pos hex]
      exact (Nat.find_spec hex).1
    · rw [getStepSize, if_neg (ne_of_gt hgt), if_neg (by linarith)]
    · rw [firstDivLE, dif_pos hex]
      exact (Nat.find_spec hex).2
    · intro j hj2 hjlt
      rw [firstDivLE, dif_pos hex] at hjlt
      have hmin := Nat.find_min hex hjlt
      push_neg at hmin
      exact hmin hj2

theorem step_size_branches_witness :
    (0 : ℝ) < 100 ∧
    ((100 * (stepBase false).approx = 40 →
      getStepSize 100 false = stepBase false) ∧
    (100 * (stepBase false).approx < 40 →
      ∃ m : ℕ, 2 ≤ m ∧ getStepSize 100 false = (stepBase false).timesInt m ∧
        40 ≤ 100 * ((stepBase false).timesInt m).approx ∧
        ∀ j : ℕ, 2 ≤ j → j < m →
          100 * ((stepBase false).timesInt j).approx < 40) ∧
    (40 < 100 * (stepBase false).approx →
      ∃ k : ℕ, 2 ≤ k ∧
        getStepSize 100 false = (stepBase false).divideInt ((k : ℤ) - 1) ∧
        100 * ((stepBase false).divideInt k).approx ≤ 40 ∧
        ∀ j : ℕ, 2 ≤ j → j < k →
          40 < 100 * ((stepBase false).divideInt j).approx)) :=
  ⟨by norm_num, step_size_branches 100 false (by norm_num)⟩

end MathPlot
